import Mathlib

/- Verification of the reconciliation engine of the aiorg CLI.

   The engine under study is `applyFileCategories` (src/unnamed/part_002): given a
   source directory, a destination directory and a version manifest with four glob
   pattern lists (alwaysReplace, neverTouch, mergeIfChanged, addOnly), it walks the
   files produced by expanding the patterns of the three processed lists in a fixed
   order, skips files matching a neverTouch pattern, copies / JSON-merges / adds the
   others, and accumulates per-file outcomes and error strings in an ApplyResult.

   The embedding below models the filesystem and the external library calls
   (glob, minimatch, fs-extra) as an explicit environment `Env` of oracle
   functions, threads the destination filesystem as an explicit map from relative
   paths to file contents, and translates the control flow of the TypeScript
   source loop by loop.  `lmerge` is the embedding of the lodash-es `merge` used
   at the call site `merge(\x7b\x7d, incoming, existing)`, restricted to the JSON
   values produced by `fs.readJson`. -/

/-- JSON values as parsed by fs.readJson: null, booleans, numbers, strings,
arrays and objects (an object is its ordered list of key/value fields).
Numbers are modelled as integers; no claim depends on float arithmetic. -/
inductive J where
  | null : J
  | bool (b : Bool) : J
  | num (n : Int) : J
  | str (s : String) : J
  | arr (xs : List J) : J
  | obj (kvs : List (String × J)) : J
deriving Repr

/-- First value bound to key k in an object field list (JS property lookup;
objects built by JSON.parse never carry duplicate keys). -/
def lookupJ : List (String × J) → String → Option J
  | [], _ => none
  | e :: rest, k => if e.1 = k then some e.2 else lookupJ rest k

/-- Digit value of a decimal character, if any. -/
def digitVal? (ch : Char) : Option Nat :=
  if ch == '0' then some 0
  else if ch == '1' then some 1
  else if ch == '2' then some 2
  else if ch == '3' then some 3
  else if ch == '4' then some 4
  else if ch == '5' then some 5
  else if ch == '6' then some 6
  else if ch == '7' then some 7
  else if ch == '8' then some 8
  else if ch == '9' then some 9
  else none

/-- Decimal value of a digit string. -/
def parseDigits : List Char → Nat → Option Nat
  | [], acc => some acc
  | ch :: rest, acc =>
    match digitVal? ch with
    | some d => parseDigits rest (acc * 10 + d)
    | none => none

/-- JavaScript canonical array-index keys: the decimal representation of a
natural number below 2^32 - 1, with no leading zero.  Every other key of an
object merged onto an array becomes an expando property that JSON
serialisation drops. -/
def toIdx? (k : String) : Option Nat :=
  match k.data with
  | [] => none
  | ch :: rest =>
    if ch == '0' then (if rest.isEmpty then some 0 else none)
    else
      match parseDigits (ch :: rest) 0 with
      | some n => if n < 4294967295 then some n else none
      | none => none

/-- Value bound to the canonical index key of i in an object field list
(property access obj[i] in JavaScript). -/
def idxLookup (kvs : List (String × J)) (i : Nat) : Option J :=
  if i < 4294967295 then lookupJ kvs (toString i) else none

/-- One past the largest canonical array-index key of an object (0 if none):
the array length that merging the object onto an array forces. -/
def idxUpper (kvs : List (String × J)) : Nat :=
  kvs.foldl (fun m kv => match toIdx? kv.1 with | some n => max m (n + 1) | none => m) 0

/-- The c array slots starting at index i produced by the overlay object's
index keys alone: present keys contribute their value (cloned), gaps are the
holes JSON serialisation renders as null. -/
def idxTailC (kvs : List (String × J)) : Nat → Nat → List J
  | _, 0 => []
  | i, Nat.succ c => (idxLookup kvs i).getD J.null :: idxTailC kvs (i + 1) c

/-- lodash isArrayLikeObject for a JSON object: a "length" field holding an
integer between 0 and 2^53 - 1. -/
def arrLikeLen (xs : List (String × J)) : Option Nat :=
  match lookupJ xs "length" with
  | some (J.num n) => if 0 ≤ n ∧ n ≤ 9007199254740991 then some n.toNat else none
  | _ => none

/-- Skeleton of lodash copyArray(base) already merged with the overlay array at
the positions where the copied base slot is a hole: overlay elements where
present, null (the serialisation of a hole) beyond. -/
def baseFill (n : Nat) (ys : List J) : List J :=
  (List.range (max n ys.length)).map (fun i => (ys.getD i J.null))

mutual

/-- Embedding of lodash-es merge as invoked at part_002 line 127:
lmerge base overlay = merge(\x7b\x7d, base, overlay), composed with the JSON
serialisation fs.writeJson performs on the result.  Matching plain objects are
merged key-wise (overlay values win recursively, overlay-only keys appended);
matching arrays are merged index-wise (overlay elements overwrite positionally,
the longer tail is retained).  A plain-object overlay on an array base is
merged into the array in place: its canonical index keys overwrite or extend
the array (holes serialise to null), its other keys become expando properties
that serialisation drops.  An array overlay on an array-like object base
(a "length" field holding a valid length) is merged into copyArray of the
base; on any other base the overlay wins, which is lodash behaviour for the
remaining kind mismatches. -/
def lmerge : J → J → J
  | J.obj xs, J.obj ys => J.obj (mergeFields xs ys ++ ys.filter (fun e => (lookupJ xs e.1).isNone))
  | J.arr xs, J.arr ys => J.arr (mergeElems xs ys)
  | J.arr xs, J.obj ys => J.arr (mergeArrObj xs 0 ys)
  | J.obj xs, J.arr ys =>
    (match arrLikeLen xs with
     | some n => J.arr (mergeLikeInto xs n ys (baseFill n ys))
     | none => J.arr ys)
  | _, b => b
termination_by structural a _ => a

/-- Key-wise merge of the base object fields against the overlay fields. -/
def mergeFields : List (String × J) → List (String × J) → List (String × J)
  | [], _ => []
  | e :: rest, ys =>
    (match lookupJ ys e.1 with
     | some v => (e.1, lmerge e.2 v)
     | none => e) :: mergeFields rest ys
termination_by structural xs _ => xs

/-- Index-wise merge of arrays, as lodash merges array indices like object keys. -/
def mergeElems : List J → List J → List J
  | [], ys => ys
  | xs, [] => xs
  | x :: xs, y :: ys => lmerge x y :: mergeElems xs ys
termination_by structural xs _ => xs

/-- Merge of a plain-object overlay into an array base, walking the base from
index i: base elements at canonical index keys of the overlay are merged,
others kept; past the base, the overlay's remaining index keys extend the
array with null-filled holes. -/
def mergeArrObj : List J → Nat → List (String × J) → List J
  | x :: rest, i, kvs =>
    (match idxLookup kvs i with
     | some v => lmerge x v
     | none => x) :: mergeArrObj rest (i + 1) kvs
  | [], i, kvs => idxTailC kvs i (idxUpper kvs - i)
termination_by structural xs _ _ => xs

/-- Merge of an array overlay into copyArray of an array-like object base:
walk the base fields and merge each canonical index key below the length over
the corresponding slot of the accumulator (baseFill of the overlay). -/
def mergeLikeInto : List (String × J) → Nat → List J → List J → List J
  | [], _, _, acc => acc
  | e :: rest, n, ys, acc =>
    mergeLikeInto rest n ys
      (match toIdx? e.1 with
       | some i =>
         if i < n then
           acc.set i
             (match ys[i]? with
              | some y => lmerge e.2 y
              | none => e.2)
         else acc
       | none => acc)
termination_by structural xs _ _ _ => xs

end

/-- All field keys pairwise distinct (true of every object produced by JSON.parse). -/
def keysDistinct : List (String × J) → Bool
  | [] => true
  | e :: rest => !(rest.any (fun e2 => e2.1 == e.1)) && keysDistinct rest

mutual

/-- Well-formed JSON document: every object layer has pairwise distinct keys. -/
def wfJ : J → Bool
  | J.null => true
  | J.bool _ => true
  | J.num _ => true
  | J.str _ => true
  | J.arr xs => wfElems xs
  | J.obj kvs => keysDistinct kvs && wfFields kvs

def wfElems : List J → Bool
  | [] => true
  | x :: xs => wfJ x && wfElems xs

def wfFields : List (String × J) → Bool
  | [] => true
  | e :: rest => wfJ e.2 && wfFields rest

end

/-- String suffix test, mirroring file.endsWith(".json") in the source. -/
def endsWithStr (s post : String) : Bool := post.data.isSuffixOf s.data

/-- Content of a file: either raw text (any non-JSON or malformed file) or a
well-formed JSON document.  Writing a JSON document with fs.writeJson and
reading it back yields the same document, so content equality models
byte-identity of files. -/
inductive Content where
  | text (s : String) : Content
  | json (j : J) : Content

/-- The fileCategories object of version.json; each list is optional
(versionJson.fileCategories?.X ?? []). -/
structure FileCategories where
  alwaysReplace : Option (List String)
  neverTouch : Option (List String)
  mergeIfChanged : Option (List String)
  addOnly : Option (List String)

/-- The manifest as consumed by applyFileCategories (only fileCategories is read). -/
structure VersionJson where
  fileCategories : Option FileCategories

/-- Result accumulator of applyFileCategories (part_002 lines 16-22). -/
structure ApplyResult where
  replaced : List String
  merged : List String
  added : List String
  skipped : List String
  errors : List String

/-- Engine state threaded through the three loops: the result accumulator, the
processedFiles set (modelled as a list) and the destination filesystem
(relative path to content; none = file absent). -/
structure RState where
  result : ApplyResult
  processedFiles : List String
  dest : String → Option Content

/-- Oracles for the effectful calls of the engine.  glob models
glob(pattern, \x7bcwd, dot, nodir\x7d) and may fail; minimatch models
minimatch(filePath, pattern, \x7bdot: true\x7d); srcContent models reading
sourceDir/file (read failure = error); copyFail / writeFail inject failures of
fs.ensureDir + fs.copy and of fs.writeJson at a destination path. -/
structure Env where
  glob : String → Except String (List String)
  minimatch : String → String → Bool
  srcContent : String → Except String Content
  copyFail : String → Option String
  writeFail : String → Option String

/-- Destination filesystem after writing content c at path p. -/
def updateFS (d : String → Option Content) (p : String) (c : Content) :
    String → Option Content :=
  fun q => if q = p then some c else d q

/-- fs.ensureDir + fs.copy of sourceDir/file to destDir/file: fails if the source
cannot be read or the copy oracle injects a failure, otherwise overwrites the
destination content with the source content. -/
def copyFile (env : Env) (d : String → Option Content) (file : String) :
    Except String (String → Option Content) :=
  match env.srcContent file with
  | Except.error e => Except.error e
  | Except.ok c =>
    match env.copyFail file with
    | some e => Except.error e
    | none => Except.ok (updateFS d file c)

/-- fs.readJson(srcPath): read failure or parse failure on non-JSON content. -/
def readJsonSrc (env : Env) (file : String) : Except String J :=
  match env.srcContent file with
  | Except.error e => Except.error e
  | Except.ok (Content.json j) => Except.ok j
  | Except.ok (Content.text _) => Except.error ("invalid JSON in source " ++ file)

/-- fs.readJson(destPath) against the current destination filesystem. -/
def readJsonDest (d : String → Option Content) (file : String) : Except String J :=
  match d file with
  | some (Content.json j) => Except.ok j
  | some (Content.text _) => Except.error ("invalid JSON in destination " ++ file)
  | none => Except.error ("no such destination file " ++ file)

/-- result.errors.push(msg). -/
def pushErr (s : RState) (msg : String) : RState :=
  { s with result := { s.result with errors := s.result.errors ++ [msg] } }

/-- Body of the alwaysReplace per-file try/catch (part_002 lines 78-85). -/
def actAlways (env : Env) (file : String) (s : RState) : RState :=
  match copyFile env s.dest file with
  | Except.ok d =>
    { s with dest := d,
             result := { s.result with replaced := s.result.replaced ++ [file] },
             processedFiles := file :: s.processedFiles }
  | Except.error e => pushErr s ("Failed to copy " ++ file ++ ": " ++ e)

/-- Body of the mergeIfChanged per-file try/catch (part_002 lines 118-143):
JSON deep merge with existing (destination) overlaying incoming (source) when
the destination exists and the name ends in .json, skip for an existing
non-JSON destination, plain copy recorded under replaced when absent. -/
def actMerge (env : Env) (file : String) (s : RState) : RState :=
  if (s.dest file).isSome && endsWithStr file ".json" then
    match readJsonSrc env file with
    | Except.error e => pushErr s ("Failed to merge " ++ file ++ ": " ++ e)
    | Except.ok incoming =>
      match readJsonDest s.dest file with
      | Except.error e => pushErr s ("Failed to merge " ++ file ++ ": " ++ e)
      | Except.ok existing =>
        match env.writeFail file with
        | some e => pushErr s ("Failed to merge " ++ file ++ ": " ++ e)
        | none =>
          { s with dest := updateFS s.dest file (Content.json (lmerge incoming existing)),
                   result := { s.result with merged := s.result.merged ++ [file] },
                   processedFiles := file :: s.processedFiles }
  else if (s.dest file).isSome then
    { s with result := { s.result with skipped := s.result.skipped ++ [file] },
             processedFiles := file :: s.processedFiles }
  else
    match copyFile env s.dest file with
    | Except.ok d =>
      { s with dest := d,
               result := { s.result with replaced := s.result.replaced ++ [file] },
               processedFiles := file :: s.processedFiles }
    | Except.error e => pushErr s ("Failed to merge " ++ file ++ ": " ++ e)

/-- Body of the addOnly per-file try/catch (part_002 lines 176-191). -/
def actAddOnly (env : Env) (file : String) (s : RState) : RState :=
  if (s.dest file).isSome then
    { s with result := { s.result with skipped := s.result.skipped ++ [file] },
             processedFiles := file :: s.processedFiles }
  else
    match copyFile env s.dest file with
    | Except.ok d =>
      { s with dest := d,
               result := { s.result with added := s.result.added ++ [file] },
               processedFiles := file :: s.processedFiles }
    | Except.error e => pushErr s ("Failed to add " ++ file ++ ": " ++ e)

/-- The three processed categories, in their fixed source order. -/
inductive Cat where
  | always : Cat
  | mergeC : Cat
  | addOnly : Cat

/-- Category-specific per-file action. -/
def actOn : Cat → Env → String → RState → RState
  | Cat.always => actAlways
  | Cat.mergeC => actMerge
  | Cat.addOnly => actAddOnly

/-- Error message tag of the per-pattern catch of each loop. -/
def patErrTag : Cat → String
  | Cat.always => "Failed to process pattern "
  | Cat.mergeC => "Failed to process merge pattern "
  | Cat.addOnly => "Failed to process addOnly pattern "

/-- One iteration of the inner file loop: skip if already claimed, record under
skipped and claim if the file matches a neverTouch pattern, otherwise run the
category action. -/
def perFile (c : Cat) (env : Env) (nt : List String) (file : String) (s : RState) : RState :=
  if s.processedFiles.contains file then s
  else if nt.any (fun p => env.minimatch file p) then
    { s with result := { s.result with skipped := s.result.skipped ++ [file] },
             processedFiles := file :: s.processedFiles }
  else actOn c env file s

/-- The inner loop over the files produced by one pattern expansion. -/
def runFiles (c : Cat) (env : Env) (nt : List String) (files : List String) (s : RState) : RState :=
  files.foldl (fun s f => perFile c env nt f s) s

/-- One iteration of the outer pattern loop: expand the pattern, record a pattern
error on expansion failure, otherwise process the produced files. -/
def processPattern (c : Cat) (env : Env) (nt : List String) (s : RState) (pat : String) : RState :=
  match env.glob pat with
  | Except.error e => pushErr s (patErrTag c ++ pat ++ ": " ++ e)
  | Except.ok files => runFiles c env nt files s

/-- One category loop: fold over its pattern list. -/
def runCat (c : Cat) (env : Env) (nt : List String) (pats : List String) (s : RState) : RState :=
  pats.foldl (processPattern c env nt) s

/-- versionJson.fileCategories?.alwaysReplace ?? []. -/
def alwaysOf (vj : VersionJson) : List String :=
  (vj.fileCategories.bind (fun fc => fc.alwaysReplace)).getD []

/-- versionJson.fileCategories?.neverTouch ?? []. -/
def ntOf (vj : VersionJson) : List String :=
  (vj.fileCategories.bind (fun fc => fc.neverTouch)).getD []

/-- versionJson.fileCategories?.mergeIfChanged ?? []. -/
def mergeOf (vj : VersionJson) : List String :=
  (vj.fileCategories.bind (fun fc => fc.mergeIfChanged)).getD []

/-- versionJson.fileCategories?.addOnly ?? []. -/
def addOnlyOf (vj : VersionJson) : List String :=
  (vj.fileCategories.bind (fun fc => fc.addOnly)).getD []

/-- Fresh engine state: empty result, empty processed set, initial destination. -/
def initState (dest0 : String → Option Content) : RState :=
  ⟨⟨[], [], [], [], []⟩, [], dest0⟩

/-- State after the alwaysReplace loop. -/
def stage1 (env : Env) (vj : VersionJson) (dest0 : String → Option Content) : RState :=
  runCat Cat.always env (ntOf vj) (alwaysOf vj) (initState dest0)

/-- State after the alwaysReplace and mergeIfChanged loops. -/
def stage2 (env : Env) (vj : VersionJson) (dest0 : String → Option Content) : RState :=
  runCat Cat.mergeC env (ntOf vj) (mergeOf vj) (stage1 env vj dest0)

/-- The whole engine (part_002 lines 31-199): the three category loops run in the
fixed order alwaysReplace, mergeIfChanged, addOnly over the initial state. -/
def applyFileCategories (env : Env) (vj : VersionJson) (dest0 : String → Option Content) : RState :=
  runCat Cat.addOnly env (ntOf vj) (addOnlyOf vj) (stage2 env vj dest0)

/-- Each path occurs at most once across the four outcome lists, and only for
claimed paths. -/
def SetsOK (s : RState) : Prop :=
  ∀ x : String,
    s.result.replaced.count x + s.result.merged.count x + s.result.added.count x
        + s.result.skipped.count x
      ≤ (if x ∈ s.processedFiles then 1 else 0)

def envC4 : Env :=
  { glob := fun _ => Except.error "EACCES"
    minimatch := fun _ _ => false
    srcContent := fun _ => Except.error "ENOENT"
    copyFail := fun _ => none
    writeFail := fun _ => none }

def vjC4 : VersionJson :=
  ⟨some ⟨some ["pa"], none, some ["pm"], some ["pd"]⟩⟩

def envC6 : Env :=
  { glob := fun p => if p = "a.json" then Except.ok ["a.json"] else Except.ok []
    minimatch := fun _ _ => false
    srcContent := fun _ => Except.ok (Content.text "fresh")
    copyFail := fun _ => none
    writeFail := fun _ => none }

def vjC6 : VersionJson :=
  ⟨some ⟨some ["a.json"], none, some ["a.json"], some ["a.json"]⟩⟩

def envC7 : Env :=
  { glob := fun _ => Except.ok ["cfg.json"]
    minimatch := fun _ _ => false
    srcContent := fun _ => Except.ok (Content.json (J.obj [("a", J.num 1)]))
    copyFail := fun _ => none
    writeFail := fun _ => none }

def sC7 : RState :=
  initState (fun q => if q = "cfg.json" then some (Content.text "not json at all") else none)

def envC8 : Env :=
  { glob := fun _ => Except.ok ["notes.txt"]
    minimatch := fun _ _ => false
    srcContent := fun _ => Except.ok (Content.text "payload")
    copyFail := fun _ => none
    writeFail := fun _ => none }

def sC8a : RState := initState (fun _ => none)

def sC8b : RState :=
  initState (fun q => if q = "notes.txt" then some (Content.text "keep me") else none)

def envC1 : Env :=
  { glob := fun p => if p = "a.txt" then Except.ok ["a.txt"] else Except.ok []
    minimatch := fun f p => f == p
    srcContent := fun _ => Except.ok (Content.text "src")
    copyFail := fun _ => none
    writeFail := fun _ => none }

def vjC1 : VersionJson := ⟨some ⟨none, some ["a.txt"], none, none⟩⟩

def vjC1w : VersionJson := ⟨some ⟨some ["a.txt"], some ["a.txt"], none, none⟩⟩

def envC5 : Env :=
  { glob := fun p => if p = "a.txt" then Except.ok ["a.txt"] else Except.ok []
    minimatch := fun _ _ => false
    srcContent := fun _ => Except.ok (Content.text "src")
    copyFail := fun _ => some "EACCES"
    writeFail := fun _ => none }

def vjC5 : VersionJson := ⟨some ⟨some ["a.txt"], none, some ["a.txt"], none⟩⟩

def dest0C5 : String → Option Content := fun q =>
  if q = "a.txt" then some (Content.text "old") else none

/-- File f is unclaimed, absent from the destination, and recorded in none of the
four outcome lists. -/
def C5E (f : String) (s : RState) : Prop :=
  f ∉ s.processedFiles ∧ s.dest f = none ∧ f ∉ s.result.replaced ∧
    f ∉ s.result.merged ∧ f ∉ s.result.added ∧ f ∉ s.result.skipped

/-- Some per-file error message for f with cause e has been recorded. -/
def C5msgs (f e : String) (s : RState) : Prop :=
  ("Failed to copy " ++ f ++ ": " ++ e) ∈ s.result.errors ∨
  ("Failed to merge " ++ f ++ ": " ++ e) ∈ s.result.errors ∨
  ("Failed to add " ++ f ++ ": " ++ e) ∈ s.result.errors

/-- Error message tag of the per-file catch of each loop. -/
def patFileErrTag : Cat → String
  | Cat.always => "Failed to copy "
  | Cat.mergeC => "Failed to merge "
  | Cat.addOnly => "Failed to add "

def envC5w : Env :=
  { glob := fun p => if p = "a.txt" then Except.ok ["a.txt"] else Except.ok []
    minimatch := fun _ _ => false
    srcContent := fun _ => Except.error "ENOENT"
    copyFail := fun _ => none
    writeFail := fun _ => none }

lemma lookupJ_append (l1 l2 : List (String × J)) (k : String) :
    lookupJ (l1 ++ l2) k =
      match lookupJ l1 k with
      | some v => some v
      | none => lookupJ l2 k := by
  induction l1 with
  | nil => simp [lookupJ]
  | cons e rest ih =>
    by_cases h : e.1 = k <;> simp [lookupJ, h, ih]

lemma lookupJ_isSome_of_mem {l : List (String × J)} {k : String} {v : J}
    (h : (k, v) ∈ l) : (lookupJ l k).isSome = true := by
  induction l with
  | nil => cases h
  | cons e rest ih =>
    rcases List.mem_cons.mp h with h1 | h1
    · simp [lookupJ, ← h1]
    · by_cases he : e.1 = k <;> simp [lookupJ, he, ih h1]

lemma lookupJ_mem {l : List (String × J)} {k : String} {v : J}
    (h : lookupJ l k = some v) : (k, v) ∈ l := by
  induction l with
  | nil => simp [lookupJ] at h
  | cons e rest ih =>
    by_cases he : e.1 = k
    · simp [lookupJ, he] at h
      exact List.mem_cons.mpr (Or.inl (by rw [← he, ← h]))
    · simp [lookupJ, he] at h
      exact List.mem_cons.mpr (Or.inr (ih h))

lemma lookupJ_eq_of_distinct {l : List (String × J)} (hd : keysDistinct l = true)
    {k : String} {v : J} (h : (k, v) ∈ l) : lookupJ l k = some v := by
  induction l with
  | nil => cases h
  | cons e rest ih =>
    simp only [keysDistinct, Bool.and_eq_true, Bool.not_eq_true'] at hd
    rcases List.mem_cons.mp h with h1 | h1
    · simp [lookupJ, ← h1]
    · have hne : e.1 ≠ k := by
        intro hk
        have : rest.any (fun e2 => e2.1 == e.1) = true :=
          List.any_eq_true.mpr ⟨(k, v), h1, by simp [hk]⟩
        rw [this] at hd
        exact absurd hd.1 (by simp)
      simp [lookupJ, hne, ih hd.2 h1]

lemma mergeFields_append (l1 l2 ys : List (String × J)) :
    mergeFields (l1 ++ l2) ys = mergeFields l1 ys ++ mergeFields l2 ys := by
  induction l1 with
  | nil => simp [mergeFields]
  | cons e rest ih => simp [mergeFields, ih]

lemma lookupJ_mergeFields (xs ys : List (String × J)) (k : String) :
    lookupJ (mergeFields xs ys) k =
      match lookupJ xs k with
      | some x => some (match lookupJ ys k with | some v => lmerge x v | none => x)
      | none => none := by
  induction xs with
  | nil => simp [mergeFields, lookupJ]
  | cons e rest ih =>
    by_cases he : e.1 = k
    · subst he
      cases hv : lookupJ ys e.1 <;> simp [mergeFields, lookupJ, hv]
    · cases hv : lookupJ ys e.1 <;> simp [mergeFields, lookupJ, hv, he, ih]

lemma mergeFields_eq_self (xs ys : List (String × J))
    (h : ∀ e ∈ xs, lookupJ ys e.1 = some e.2 ∧ lmerge e.2 e.2 = e.2) :
    mergeFields xs ys = xs := by
  induction xs with
  | nil => rfl
  | cons e rest ih =>
    have he := h e (List.mem_cons_self e rest)
    simp only [mergeFields, he.1]
    rw [he.2]
    exact congrArg _ (ih (fun e' h' => h e' (List.mem_cons_of_mem _ h')))

lemma mergeFields_idem_pointwise (xs ys : List (String × J))
    (h : ∀ k v, lookupJ ys k = some v → ∀ x, lmerge (lmerge x v) v = lmerge x v) :
    mergeFields (mergeFields xs ys) ys = mergeFields xs ys := by
  induction xs with
  | nil => rfl
  | cons e rest ih =>
    cases hv : lookupJ ys e.1 with
    | none => simp only [mergeFields, hv, ih]
    | some v =>
      simp only [mergeFields, hv, h e.1 v hv e.2, ih]

lemma mergeElems_self (ys : List J) (h : ∀ y ∈ ys, lmerge y y = y) :
    mergeElems ys ys = ys := by
  induction ys with
  | nil => rfl
  | cons y rest ih =>
    show lmerge y y :: mergeElems rest rest = y :: rest
    rw [h y (List.mem_cons_self y rest), ih (fun y' h' => h y' (List.mem_cons_of_mem _ h'))]

lemma mergeElems_nil_right (xs : List J) : mergeElems xs [] = xs := by
  cases xs <;> rfl

lemma mergeElems_idem (ys : List J)
    (hid : ∀ y ∈ ys, ∀ x, lmerge (lmerge x y) y = lmerge x y)
    (hs : ∀ y ∈ ys, lmerge y y = y) :
    ∀ xs, mergeElems (mergeElems xs ys) ys = mergeElems xs ys := by
  induction ys with
  | nil => intro xs; rw [mergeElems_nil_right, mergeElems_nil_right]
  | cons y ys' ih =>
    intro xs
    cases xs with
    | nil =>
      show mergeElems (y :: ys') (y :: ys') = y :: ys'
      exact mergeElems_self _ hs
    | cons x xs' =>
      show lmerge (lmerge x y) y :: mergeElems (mergeElems xs' ys') ys'
          = lmerge x y :: mergeElems xs' ys'
      rw [hid y (List.mem_cons_self y ys') x,
          ih (fun y' h' => hid y' (List.mem_cons_of_mem _ h'))
             (fun y' h' => hs y' (List.mem_cons_of_mem _ h')) xs']

lemma wfElems_of_mem {ys : List J} (h : wfElems ys = true) {y : J} (hy : y ∈ ys) :
    wfJ y = true := by
  induction ys with
  | nil => cases hy
  | cons z rest ih =>
    simp only [wfElems, Bool.and_eq_true] at h
    rcases List.mem_cons.mp hy with h1 | h1
    · rw [h1]; exact h.1
    · exact ih h.2 h1

lemma wfFields_of_mem {ys : List (String × J)} (h : wfFields ys = true) {e : String × J}
    (he : e ∈ ys) : wfJ e.2 = true := by
  induction ys with
  | nil => cases he
  | cons z rest ih =>
    simp only [wfFields, Bool.and_eq_true] at h
    rcases List.mem_cons.mp he with h1 | h1
    · rw [h1]; exact h.1
    · exact ih h.2 h1

lemma sizeOf_lt_of_mem_arr {ys : List J} {y : J} (h : y ∈ ys) :
    sizeOf y < sizeOf (J.arr ys) := by
  have h1 := List.sizeOf_lt_of_mem h
  simp only [J.arr.sizeOf_spec]
  omega

lemma sizeOf_lt_of_mem_obj {ys : List (String × J)} {e : String × J} (h : e ∈ ys) :
    sizeOf e.2 < sizeOf (J.obj ys) := by
  have h1 := List.sizeOf_lt_of_mem h
  have h2 : sizeOf e.2 < sizeOf e := by
    cases e with
    | mk k v => simp
  simp only [J.obj.sizeOf_spec]
  omega

lemma mem_of_getElem?J {l : List J} {i : Nat} {y : J} (h : l[i]? = some y) : y ∈ l := by
  obtain ⟨hlt, rfl⟩ := List.getElem?_eq_some.mp h
  exact List.getElem_mem hlt

lemma idxLookup_mem {kvs : List (String × J)} {i : Nat} {v : J}
    (h : idxLookup kvs i = some v) : (toString i, v) ∈ kvs := by
  unfold idxLookup at h
  split at h
  · exact lookupJ_mem h
  · cases h

lemma idxTailC_walk_self (ys : List (String × J))
    (hself : ∀ i v, idxLookup ys i = some v → lmerge v v = v) :
    ∀ (c i0 : Nat), idxUpper ys ≤ i0 + c →
    mergeArrObj (idxTailC ys i0 c) i0 ys = idxTailC ys i0 c := by
  intro c
  induction c with
  | zero =>
    intro i0 hb
    show mergeArrObj [] i0 ys = idxTailC ys i0 0
    show idxTailC ys i0 (idxUpper ys - i0) = idxTailC ys i0 0
    rw [Nat.sub_eq_zero_of_le (by omega)]
  | succ c ih =>
    intro i0 hb
    cases h0 : idxLookup ys i0 with
    | none => simp only [idxTailC, mergeArrObj, h0, Option.getD]; rw [ih (i0 + 1) (by omega)]
    | some v =>
      simp only [idxTailC, mergeArrObj, h0, Option.getD]
      rw [hself i0 v h0, ih (i0 + 1) (by omega)]

lemma mergeArrObj_idem (ys : List (String × J))
    (hidem : ∀ i v, idxLookup ys i = some v → ∀ x, lmerge (lmerge x v) v = lmerge x v)
    (hself : ∀ i v, idxLookup ys i = some v → lmerge v v = v) :
    ∀ (xs : List J) (i0 : Nat),
    mergeArrObj (mergeArrObj xs i0 ys) i0 ys = mergeArrObj xs i0 ys := by
  intro xs
  induction xs with
  | nil =>
    intro i0
    show mergeArrObj (idxTailC ys i0 (idxUpper ys - i0)) i0 ys = _
    exact idxTailC_walk_self ys hself _ i0 (by omega)
  | cons x rest ih =>
    intro i0
    cases h0 : idxLookup ys i0 with
    | none => simp only [mergeArrObj, h0]; rw [ih (i0 + 1)]
    | some v =>
      simp only [mergeArrObj, h0]
      rw [hidem i0 v h0 x, ih (i0 + 1)]

lemma mergeElems_absorb : ∀ (r ys : List J), ys.length ≤ r.length →
    (∀ (i : Nat) (y z : J), ys[i]? = some y → r[i]? = some z → lmerge z y = z) →
    mergeElems r ys = r := by
  intro r
  induction r with
  | nil =>
    intro ys hlen _
    have hy : ys = [] := List.length_eq_zero.mp (Nat.le_zero.mp (by simpa using hlen))
    rw [hy]
    rfl
  | cons z r' ih =>
    intro ys hlen habs
    cases ys with
    | nil => exact mergeElems_nil_right _
    | cons y ys' =>
      show lmerge z y :: mergeElems r' ys' = z :: r'
      rw [habs 0 y z (by simp) (by simp),
        ih ys' (by simpa using hlen)
          (fun i y2 z2 h1 h2 => habs (i + 1) y2 z2 (by simpa) (by simpa))]

lemma mergeLikeInto_length : ∀ (xs : List (String × J)) (n : Nat) (ys acc : List J),
    (mergeLikeInto xs n ys acc).length = acc.length := by
  intro xs
  induction xs with
  | nil => intro n ys acc; rfl
  | cons e rest ih =>
    intro n ys acc
    show (mergeLikeInto rest n ys _).length = _
    rw [ih]
    cases h : toIdx? e.1 with
    | none => rfl
    | some j =>
      simp only
      split
      · cases ys[j]? <;> simp [List.length_set]
      · rfl

lemma mergeLikeInto_inv (ys : List J) (n : Nat)
    (hidem : ∀ y ∈ ys, ∀ x, lmerge (lmerge x y) y = lmerge x y) :
    ∀ (xs : List (String × J)) (acc : List J),
    (∀ (i : Nat) (y z : J), ys[i]? = some y → acc[i]? = some z → lmerge z y = z) →
    (∀ (i : Nat) (y z : J), ys[i]? = some y → (mergeLikeInto xs n ys acc)[i]? = some z →
      lmerge z y = z) := by
  intro xs
  induction xs with
  | nil => intro acc hbase; exact hbase
  | cons e rest ih =>
    intro acc hbase
    show ∀ (i : Nat) (y z : J), ys[i]? = some y → (mergeLikeInto rest n ys _)[i]? = some z →
      lmerge z y = z
    refine ih _ ?_
    intro i y z h1 h2
    cases h : toIdx? e.1 with
    | none =>
      simp only [h] at h2
      exact hbase i y z h1 h2
    | some j =>
      simp only [h] at h2
      by_cases hj : j < n
      · rw [if_pos hj, List.getElem?_set] at h2
        by_cases hji : j = i
        · subst hji
          rw [if_pos rfl] at h2
          by_cases hlt : j < acc.length
          · rw [if_pos hlt, h1] at h2
            have hz : z = lmerge e.2 y := (Option.some.injEq _ _ ▸ h2).symm
            rw [hz]
            exact hidem y (mem_of_getElem?J h1) e.2
          · rw [if_neg hlt] at h2
            cases h2
        · rw [if_neg hji] at h2
          exact hbase i y z h1 h2
      · rw [if_neg hj] at h2
        exact hbase i y z h1 h2

theorem lmerge_self_idem_aux : ∀ (n : Nat) (b : J), sizeOf b = n → wfJ b = true →
    (lmerge b b = b) ∧ (∀ a : J, lmerge (lmerge a b) b = lmerge a b) := by
  intro n
  induction n using Nat.strong_induction_on with
  | _ n IH =>
    intro b hsz hwf
    cases b with
    | null => exact ⟨rfl, fun a => by cases a <;> rfl⟩
    | bool v => exact ⟨rfl, fun a => by cases a <;> rfl⟩
    | num v => exact ⟨rfl, fun a => by cases a <;> rfl⟩
    | str v => exact ⟨rfl, fun a => by cases a <;> rfl⟩
    | arr ys =>
      have hwe : wfElems ys = true := by
        simpa only [wfJ] using hwf
      have hs : ∀ y ∈ ys, lmerge y y = y := by
        intro y hy
        exact (IH (sizeOf y) (hsz ▸ sizeOf_lt_of_mem_arr hy) y rfl (wfElems_of_mem hwe hy)).1
      have hid : ∀ y ∈ ys, ∀ x, lmerge (lmerge x y) y = lmerge x y := by
        intro y hy
        exact (IH (sizeOf y) (hsz ▸ sizeOf_lt_of_mem_arr hy) y rfl (wfElems_of_mem hwe hy)).2
      constructor
      · show J.arr (mergeElems ys ys) = J.arr ys
        rw [mergeElems_self ys hs]
      · intro a
        cases a with
        | arr xs =>
          show J.arr (mergeElems (mergeElems xs ys) ys) = J.arr (mergeElems xs ys)
          rw [mergeElems_idem ys hid hs xs]
        | null => show J.arr (mergeElems ys ys) = J.arr ys; rw [mergeElems_self ys hs]
        | bool v => show J.arr (mergeElems ys ys) = J.arr ys; rw [mergeElems_self ys hs]
        | num v => show J.arr (mergeElems ys ys) = J.arr ys; rw [mergeElems_self ys hs]
        | str v => show J.arr (mergeElems ys ys) = J.arr ys; rw [mergeElems_self ys hs]
        | obj xs =>
          have hred : lmerge (J.obj xs) (J.arr ys)
              = (match arrLikeLen xs with
                 | some m => J.arr (mergeLikeInto xs m ys (baseFill m ys))
                 | none => J.arr ys) := rfl
          cases hL : arrLikeLen xs with
          | none =>
            rw [hred, hL]
            show J.arr (mergeElems ys ys) = J.arr ys
            rw [mergeElems_self ys hs]
          | some m =>
            rw [hred, hL]
            show J.arr (mergeElems (mergeLikeInto xs m ys (baseFill m ys)) ys) = _
            have hlen : ys.length ≤ (mergeLikeInto xs m ys (baseFill m ys)).length := by
              rw [mergeLikeInto_length]
              simp only [baseFill, List.length_map, List.length_range]
              omega
            have hbase : ∀ (i : Nat) (y z : J), ys[i]? = some y →
                (baseFill m ys)[i]? = some z → lmerge z y = z := by
              intro i y z h1 h2
              have hi : i < ys.length := (List.getElem?_eq_some.mp h1).1
              have hr : (List.range (max m ys.length))[i]? = some i := by
                simp [List.getElem?_range, lt_of_lt_of_le hi (Nat.le_max_right m ys.length)]
              have hb : (baseFill m ys)[i]? = some (ys.getD i J.null) := by
                show ((List.range (max m ys.length)).map fun j => ys.getD j J.null)[i]? = _
                rw [List.getElem?_map, hr]
                rfl
              rw [hb] at h2
              have hz : z = y := by
                have := List.getD_eq_getElem?_getD ys i J.null
                rw [this, h1] at h2
                exact (Option.some.injEq _ _ ▸ h2).symm
              rw [hz]
              exact hs y (mem_of_getElem?J h1)
            rw [mergeElems_absorb _ ys hlen
              (mergeLikeInto_inv ys m (fun y hy => hid y hy) xs (baseFill m ys) hbase)]
    | obj ys =>
      have hwo : keysDistinct ys = true ∧ wfFields ys = true := by
        simpa only [wfJ, Bool.and_eq_true] using hwf
      have hs : ∀ e ∈ ys, lmerge e.2 e.2 = e.2 := by
        intro e he
        exact (IH (sizeOf e.2) (hsz ▸ sizeOf_lt_of_mem_obj he) e.2 rfl
          (wfFields_of_mem hwo.2 he)).1
      have hid : ∀ e ∈ ys, ∀ x, lmerge (lmerge x e.2) e.2 = lmerge x e.2 := by
        intro e he
        exact (IH (sizeOf e.2) (hsz ▸ sizeOf_lt_of_mem_obj he) e.2 rfl
          (wfFields_of_mem hwo.2 he)).2
      have hself : lmerge (J.obj ys) (J.obj ys) = J.obj ys := by
        show J.obj (mergeFields ys ys ++ ys.filter fun e => (lookupJ ys e.1).isNone)
            = J.obj ys
        have hfil : (ys.filter fun e => (lookupJ ys e.1).isNone) = [] := by
          rw [List.filter_eq_nil_iff]
          intro e he
          have := lookupJ_isSome_of_mem (l := ys) (k := e.1) (v := e.2) (by simpa using he)
          simp [Option.isNone]
          cases hh : lookupJ ys e.1 with
          | none => rw [hh] at this; simp at this
          | some v => simp
        have hmf : mergeFields ys ys = ys := by
          apply mergeFields_eq_self
          intro e he
          exact ⟨lookupJ_eq_of_distinct hwo.1 (by simpa using he), hs e he⟩
        rw [hfil, hmf, List.append_nil]
      refine ⟨hself, ?_⟩
      intro a
      cases a with
      | obj xs =>
        show J.obj
            (mergeFields (mergeFields xs ys ++ ys.filter fun e => (lookupJ xs e.1).isNone) ys
              ++ ys.filter fun e =>
                  (lookupJ (mergeFields xs ys ++ ys.filter fun e2 => (lookupJ xs e2.1).isNone)
                    e.1).isNone)
            = J.obj (mergeFields xs ys ++ ys.filter fun e => (lookupJ xs e.1).isNone)
        have hfil : (ys.filter fun e =>
            (lookupJ (mergeFields xs ys ++ ys.filter fun e2 => (lookupJ xs e2.1).isNone)
              e.1).isNone) = [] := by
          rw [List.filter_eq_nil_iff]
          intro e he
          rw [lookupJ_append, lookupJ_mergeFields]
          cases hx : lookupJ xs e.1 with
          | some x => simp
          | none =>
            have hmem : e ∈ ys.filter fun e2 => (lookupJ xs e2.1).isNone := by
              rw [List.mem_filter]
              exact ⟨he, by rw [hx]; rfl⟩
            have := lookupJ_isSome_of_mem (l := ys.filter fun e2 => (lookupJ xs e2.1).isNone)
              (k := e.1) (v := e.2) (by simpa using hmem)
            simp only []
            cases hh : lookupJ (ys.filter fun e2 => (lookupJ xs e2.1).isNone) e.1 with
            | none => rw [hh] at this; simp at this
            | some v => simp
        have hmf : mergeFields (mergeFields xs ys ++ ys.filter fun e =>
            (lookupJ xs e.1).isNone) ys
            = mergeFields xs ys ++ ys.filter fun e => (lookupJ xs e.1).isNone := by
          rw [mergeFields_append]
          have h1 : mergeFields (mergeFields xs ys) ys = mergeFields xs ys := by
            apply mergeFields_idem_pointwise
            intro k v hv x
            exact hid (k, v) (lookupJ_mem hv) x
          have h2 : mergeFields (ys.filter fun e => (lookupJ xs e.1).isNone) ys
              = ys.filter fun e => (lookupJ xs e.1).isNone := by
            apply mergeFields_eq_self
            intro e he
            have hey : e ∈ ys := (List.mem_filter.mp he).1
            exact ⟨lookupJ_eq_of_distinct hwo.1 (by simpa using hey), hs e hey⟩
          rw [h1, h2]
        rw [hfil, hmf, List.append_nil]
      | null => exact hself
      | bool v => exact hself
      | num v => exact hself
      | str v => exact hself
      | arr xs =>
        show J.arr (mergeArrObj (mergeArrObj xs 0 ys) 0 ys) = J.arr (mergeArrObj xs 0 ys)
        have hvi : ∀ i v, idxLookup ys i = some v →
            ∀ x, lmerge (lmerge x v) v = lmerge x v := by
          intro i v hv
          have hm := idxLookup_mem hv
          exact (IH (sizeOf v) (hsz ▸ sizeOf_lt_of_mem_obj hm) v rfl
            (wfFields_of_mem hwo.2 hm)).2
        have hvs : ∀ i v, idxLookup ys i = some v → lmerge v v = v := by
          intro i v hv
          have hm := idxLookup_mem hv
          exact (IH (sizeOf v) (hsz ▸ sizeOf_lt_of_mem_obj hm) v rfl
            (wfFields_of_mem hwo.2 hm)).1
        rw [mergeArrObj_idem ys hvi hvs xs 0]

theorem lmerge_idem (a b : J) (h : wfJ b = true) :
    lmerge (lmerge a b) b = lmerge a b :=
  (lmerge_self_idem_aux (sizeOf b) b rfl h).2 a

lemma mergeElems_eq (xs : List J) : ∀ ys : List J,
    mergeElems xs ys
      = List.zipWith lmerge xs ys ++ xs.drop ys.length ++ ys.drop xs.length := by
  induction xs with
  | nil => intro ys; cases ys <;> simp [mergeElems]
  | cons x xs' ih =>
    intro ys
    cases ys with
    | nil => simp [mergeElems_nil_right]
    | cons y ys' =>
      show lmerge x y :: mergeElems xs' ys' = _
      simp [ih ys']

lemma copyFile_ok {env : Env} {d : String → Option Content} {f : String}
    {d' : String → Option Content} (h : copyFile env d f = Except.ok d') :
    ∃ cc, d' = updateFS d f cc := by
  unfold copyFile at h
  cases hs : env.srcContent f with
  | error e => rw [hs] at h; cases h
  | ok cc =>
    rw [hs] at h
    cases hc : env.copyFail f with
    | some e => rw [hc] at h; cases h
    | none =>
      rw [hc] at h
      cases h
      exact ⟨cc, rfl⟩

lemma perFile_shape (c : Cat) (env : Env) (nt : List String) (g : String) (s : RState) :
    ((perFile c env nt g s).result.replaced = s.result.replaced ∨
      (perFile c env nt g s).result.replaced = s.result.replaced ++ [g]) ∧
    ((perFile c env nt g s).result.merged = s.result.merged ∨
      (perFile c env nt g s).result.merged = s.result.merged ++ [g]) ∧
    ((perFile c env nt g s).result.added = s.result.added ∨
      (perFile c env nt g s).result.added = s.result.added ++ [g]) ∧
    ((perFile c env nt g s).result.skipped = s.result.skipped ∨
      (perFile c env nt g s).result.skipped = s.result.skipped ++ [g]) ∧
    (∃ es, (perFile c env nt g s).result.errors = s.result.errors ++ es) ∧
    ((perFile c env nt g s).processedFiles = s.processedFiles ∨
      (perFile c env nt g s).processedFiles = g :: s.processedFiles) ∧
    (∀ q, q ≠ g → (perFile c env nt g s).dest q = s.dest q) := by
  cases c <;>
    · simp only [perFile, actOn, actAlways, actMerge, actAddOnly, pushErr]
      repeat' split
      all_goals refine ⟨?_, ?_, ?_, ?_, ?_, ?_, ?_⟩
      all_goals
        first
          | exact Or.inl rfl
          | exact Or.inr rfl
          | exact ⟨[_], rfl⟩
          | exact ⟨[], (List.append_nil _).symm⟩
          | (intro q hq
             obtain ⟨cc, hcc⟩ := copyFile_ok (by assumption)
             rw [hcc]
             simp [updateFS, hq])
          | (intro q hq; simp [updateFS, hq])

lemma perFile_dest_ne (c : Cat) (env : Env) (nt : List String) (g : String) (s : RState)
    {q : String} (hq : q ≠ g) : (perFile c env nt g s).dest q = s.dest q :=
  (perFile_shape c env nt g s).2.2.2.2.2.2 q hq

lemma perFile_proc_mono (c : Cat) (env : Env) (nt : List String) (g : String) (s : RState)
    {x : String} (h : x ∈ s.processedFiles) : x ∈ (perFile c env nt g s).processedFiles := by
  rcases (perFile_shape c env nt g s).2.2.2.2.2.1 with h1 | h1 <;> rw [h1]
  · exact h
  · exact List.mem_cons_of_mem _ h

lemma perFile_proc_sub (c : Cat) (env : Env) (nt : List String) (g : String) (s : RState)
    {x : String} (h : x ∈ (perFile c env nt g s).processedFiles) :
    x ∈ s.processedFiles ∨ x = g := by
  rcases (perFile_shape c env nt g s).2.2.2.2.2.1 with h1 | h1 <;> rw [h1] at h
  · exact Or.inl h
  · rcases List.mem_cons.mp h with h2 | h2
    · exact Or.inr h2
    · exact Or.inl h2

lemma perFile_replaced_mono (c : Cat) (env : Env) (nt : List String) (g : String) (s : RState)
    {x : String} (h : x ∈ s.result.replaced) : x ∈ (perFile c env nt g s).result.replaced := by
  rcases (perFile_shape c env nt g s).1 with h1 | h1 <;> rw [h1]
  · exact h
  · exact List.mem_append_left _ h

lemma perFile_added_mono (c : Cat) (env : Env) (nt : List String) (g : String) (s : RState)
    {x : String} (h : x ∈ s.result.added) : x ∈ (perFile c env nt g s).result.added := by
  rcases (perFile_shape c env nt g s).2.2.1 with h1 | h1 <;> rw [h1]
  · exact h
  · exact List.mem_append_left _ h

lemma perFile_skipped_mono (c : Cat) (env : Env) (nt : List String) (g : String) (s : RState)
    {x : String} (h : x ∈ s.result.skipped) : x ∈ (perFile c env nt g s).result.skipped := by
  rcases (perFile_shape c env nt g s).2.2.2.1 with h1 | h1 <;> rw [h1]
  · exact h
  · exact List.mem_append_left _ h

lemma perFile_errors_mono (c : Cat) (env : Env) (nt : List String) (g : String) (s : RState)
    {x : String} (h : x ∈ s.result.errors) : x ∈ (perFile c env nt g s).result.errors := by
  obtain ⟨es, h1⟩ := (perFile_shape c env nt g s).2.2.2.2.1
  rw [h1]
  exact List.mem_append_left _ h

lemma perFile_replaced_sub (c : Cat) (env : Env) (nt : List String) (g : String) (s : RState)
    {x : String} (h : x ∈ (perFile c env nt g s).result.replaced) :
    x ∈ s.result.replaced ∨ x = g := by
  rcases (perFile_shape c env nt g s).1 with h1 | h1 <;> rw [h1] at h
  · exact Or.inl h
  · rcases List.mem_append.mp h with h2 | h2
    · exact Or.inl h2
    · exact Or.inr (List.mem_singleton.mp h2)

lemma perFile_merged_sub (c : Cat) (env : Env) (nt : List String) (g : String) (s : RState)
    {x : String} (h : x ∈ (perFile c env nt g s).result.merged) :
    x ∈ s.result.merged ∨ x = g := by
  rcases (perFile_shape c env nt g s).2.1 with h1 | h1 <;> rw [h1] at h
  · exact Or.inl h
  · rcases List.mem_append.mp h with h2 | h2
    · exact Or.inl h2
    · exact Or.inr (List.mem_singleton.mp h2)

lemma perFile_added_sub (c : Cat) (env : Env) (nt : List String) (g : String) (s : RState)
    {x : String} (h : x ∈ (perFile c env nt g s).result.added) :
    x ∈ s.result.added ∨ x = g := by
  rcases (perFile_shape c env nt g s).2.2.1 with h1 | h1 <;> rw [h1] at h
  · exact Or.inl h
  · rcases List.mem_append.mp h with h2 | h2
    · exact Or.inl h2
    · exact Or.inr (List.mem_singleton.mp h2)

lemma perFile_skipped_sub (c : Cat) (env : Env) (nt : List String) (g : String) (s : RState)
    {x : String} (h : x ∈ (perFile c env nt g s).result.skipped) :
    x ∈ s.result.skipped ∨ x = g := by
  rcases (perFile_shape c env nt g s).2.2.2.1 with h1 | h1 <;> rw [h1] at h
  · exact Or.inl h
  · rcases List.mem_append.mp h with h2 | h2
    · exact Or.inl h2
    · exact Or.inr (List.mem_singleton.mp h2)

lemma perFile_count_ne (c : Cat) (env : Env) (nt : List String) (g : String) (s : RState)
    {f : String} (hf : f ≠ g) :
    (perFile c env nt g s).result.replaced.count f = s.result.replaced.count f ∧
    (perFile c env nt g s).result.merged.count f = s.result.merged.count f ∧
    (perFile c env nt g s).result.added.count f = s.result.added.count f ∧
    (perFile c env nt g s).result.skipped.count f = s.result.skipped.count f := by
  obtain ⟨h1, h2, h3, h4, _, _, _⟩ := perFile_shape c env nt g s
  refine ⟨?_, ?_, ?_, ?_⟩ <;>
    [rcases h1 with h | h; rcases h2 with h | h; rcases h3 with h | h; rcases h4 with h | h] <;>
    rw [h] <;>
    simp [List.count_append, List.count_singleton, hf]

lemma perFile_claimed (c : Cat) (env : Env) (nt : List String) (f : String) (s : RState)
    (h : f ∈ s.processedFiles) : perFile c env nt f s = s := by
  unfold perFile
  rw [if_pos (by simpa using h)]

lemma pushErr_result (s : RState) (m : String) :
    (pushErr s m).result.replaced = s.result.replaced ∧
    (pushErr s m).result.merged = s.result.merged ∧
    (pushErr s m).result.added = s.result.added ∧
    (pushErr s m).result.skipped = s.result.skipped ∧
    (pushErr s m).result.errors = s.result.errors ++ [m] ∧
    (pushErr s m).processedFiles = s.processedFiles ∧
    (pushErr s m).dest = s.dest :=
  ⟨rfl, rfl, rfl, rfl, rfl, rfl, rfl⟩

lemma perFile_nt (c : Cat) (env : Env) (nt : List String) (f : String) (s : RState)
    (h1 : f ∉ s.processedFiles) (h2 : nt.any (fun p => env.minimatch f p) = true) :
    perFile c env nt f s =
      { s with result := { s.result with skipped := s.result.skipped ++ [f] },
               processedFiles := f :: s.processedFiles } := by
  unfold perFile
  rw [if_neg (by simpa using h1), if_pos h2]

lemma perFile_act (c : Cat) (env : Env) (nt : List String) (f : String) (s : RState)
    (h1 : f ∉ s.processedFiles) (h2 : nt.any (fun p => env.minimatch f p) = false) :
    perFile c env nt f s = actOn c env f s := by
  unfold perFile
  rw [if_neg (by simpa using h1), if_neg (by simp [h2])]

lemma actAlways_ok (env : Env) (f : String) (s : RState) {d : String → Option Content}
    (hc : copyFile env s.dest f = Except.ok d) :
    actAlways env f s =
      { s with dest := d,
               result := { s.result with replaced := s.result.replaced ++ [f] },
               processedFiles := f :: s.processedFiles } := by
  unfold actAlways
  rw [hc]

lemma actAlways_err (env : Env) (f : String) (s : RState) {e : String}
    (hc : copyFile env s.dest f = Except.error e) :
    actAlways env f s = pushErr s ("Failed to copy " ++ f ++ ": " ++ e) := by
  unfold actAlways
  rw [hc]

lemma actMerge_err_src (env : Env) (f : String) (s : RState) {e : String}
    (hd : (s.dest f).isSome = true) (hj : endsWithStr f ".json" = true)
    (hs : readJsonSrc env f = Except.error e) :
    actMerge env f s = pushErr s ("Failed to merge " ++ f ++ ": " ++ e) := by
  unfold actMerge
  rw [if_pos (by simp [hd, hj])]
  rw [hs]

lemma actMerge_err_dest (env : Env) (f : String) (s : RState) {inc : J} {t : String}
    (hd : s.dest f = some (Content.text t)) (hj : endsWithStr f ".json" = true)
    (hs : readJsonSrc env f = Except.ok inc) :
    actMerge env f s =
      pushErr s ("Failed to merge " ++ f ++ ": " ++ ("invalid JSON in destination " ++ f)) := by
  unfold actMerge
  rw [if_pos (by simp [hd, hj])]
  rw [hs]
  simp only [readJsonDest, hd]

lemma actMerge_err_write (env : Env) (f : String) (s : RState) {inc ex : J} {e : String}
    (hd : s.dest f = some (Content.json ex)) (hj : endsWithStr f ".json" = true)
    (hs : readJsonSrc env f = Except.ok inc) (hw : env.writeFail f = some e) :
    actMerge env f s = pushErr s ("Failed to merge " ++ f ++ ": " ++ e) := by
  unfold actMerge
  rw [if_pos (by simp [hd, hj])]
  rw [hs]
  simp only [readJsonDest, hd, hw]

lemma actMerge_nojson_skip (env : Env) (f : String) (s : RState)
    (hd : (s.dest f).isSome = true) (hj : endsWithStr f ".json" = false) :
    actMerge env f s =
      { s with result := { s.result with skipped := s.result.skipped ++ [f] },
               processedFiles := f :: s.processedFiles } := by
  unfold actMerge
  rw [if_neg (by simp [hj]), if_pos (by simp [hd])]

lemma actMerge_copy_ok (env : Env) (f : String) (s : RState) {d : String → Option Content}
    (hd : s.dest f = none) (hc : copyFile env s.dest f = Except.ok d) :
    actMerge env f s =
      { s with dest := d,
               result := { s.result with replaced := s.result.replaced ++ [f] },
               processedFiles := f :: s.processedFiles } := by
  unfold actMerge
  rw [if_neg (by simp [hd]), if_neg (by simp [hd])]
  rw [hc]

lemma actMerge_copy_err (env : Env) (f : String) (s : RState) {e : String}
    (hd : s.dest f = none) (hc : copyFile env s.dest f = Except.error e) :
    actMerge env f s = pushErr s ("Failed to merge " ++ f ++ ": " ++ e) := by
  unfold actMerge
  rw [if_neg (by simp [hd]), if_neg (by simp [hd])]
  rw [hc]

lemma actAddOnly_skip (env : Env) (f : String) (s : RState)
    (hd : (s.dest f).isSome = true) :
    actAddOnly env f s =
      { s with result := { s.result with skipped := s.result.skipped ++ [f] },
               processedFiles := f :: s.processedFiles } := by
  unfold actAddOnly
  rw [if_pos (by simp [hd])]

lemma actAddOnly_ok (env : Env) (f : String) (s : RState) {d : String → Option Content}
    (hd : s.dest f = none) (hc : copyFile env s.dest f = Except.ok d) :
    actAddOnly env f s =
      { s with dest := d,
               result := { s.result with added := s.result.added ++ [f] },
               processedFiles := f :: s.processedFiles } := by
  unfold actAddOnly
  rw [if_neg (by simp [hd])]
  rw [hc]

lemma actAddOnly_err (env : Env) (f : String) (s : RState) {e : String}
    (hd : s.dest f = none) (hc : copyFile env s.dest f = Except.error e) :
    actAddOnly env f s = pushErr s ("Failed to add " ++ f ++ ": " ++ e) := by
  unfold actAddOnly
  rw [if_neg (by simp [hd])]
  rw [hc]

lemma processPattern_err (c : Cat) (env : Env) (nt : List String) (s : RState)
    {p e : String} (h : env.glob p = Except.error e) :
    processPattern c env nt s p = pushErr s (patErrTag c ++ p ++ ": " ++ e) := by
  unfold processPattern
  rw [h]

lemma processPattern_ok (c : Cat) (env : Env) (nt : List String) (s : RState)
    {p : String} {files : List String} (h : env.glob p = Except.ok files) :
    processPattern c env nt s p = runFiles c env nt files s := by
  unfold processPattern
  rw [h]

lemma runFiles_cons (c : Cat) (env : Env) (nt : List String) (f : String)
    (files : List String) (s : RState) :
    runFiles c env nt (f :: files) s = runFiles c env nt files (perFile c env nt f s) := rfl

lemma runCat_cons (c : Cat) (env : Env) (nt : List String) (p : String)
    (pats : List String) (s : RState) :
    runCat c env nt (p :: pats) s = runCat c env nt pats (processPattern c env nt s p) := rfl

lemma runFiles_pres {c : Cat} {env : Env} {nt : List String} {P : RState → Prop}
    (h : ∀ s f, P s → P (perFile c env nt f s)) :
    ∀ (files : List String) (s : RState), P s → P (runFiles c env nt files s) := by
  intro files
  induction files with
  | nil => intro s hs; exact hs
  | cons f rest ih =>
    intro s hs
    rw [runFiles_cons]
    exact ih _ (h s f hs)

lemma runCat_pres {c : Cat} {env : Env} {nt : List String} {P : RState → Prop}
    (hstep : ∀ s f, P s → P (perFile c env nt f s))
    (hpush : ∀ s m, P s → P (pushErr s m)) :
    ∀ (pats : List String) (s : RState), P s → P (runCat c env nt pats s) := by
  intro pats
  induction pats with
  | nil => intro s hs; exact hs
  | cons p rest ih =>
    intro s hs
    rw [runCat_cons]
    refine ih _ ?_
    cases hg : env.glob p with
    | error e => rw [processPattern_err c env nt s hg]; exact hpush s _ hs
    | ok files => rw [processPattern_ok c env nt s hg]; exact runFiles_pres hstep files s hs

lemma apply_pres {env : Env} {vj : VersionJson} {dest0 : String → Option Content}
    {P : RState → Prop}
    (hstep : ∀ c s f, P s → P (perFile c env (ntOf vj) f s))
    (hpush : ∀ s m, P s → P (pushErr s m))
    (h0 : P (initState dest0)) : P (applyFileCategories env vj dest0) := by
  unfold applyFileCategories stage2 stage1
  exact runCat_pres (hstep _) hpush _ _
    (runCat_pres (hstep _) hpush _ _ (runCat_pres (hstep _) hpush _ _ h0))

lemma runFiles_append (c : Cat) (env : Env) (nt : List String) (l1 l2 : List String)
    (s : RState) :
    runFiles c env nt (l1 ++ l2) s = runFiles c env nt l2 (runFiles c env nt l1 s) := by
  simp [runFiles, List.foldl_append]

lemma runCat_append (c : Cat) (env : Env) (nt : List String) (l1 l2 : List String)
    (s : RState) :
    runCat c env nt (l1 ++ l2) s = runCat c env nt l2 (runCat c env nt l1 s) := by
  simp [runCat, List.foldl_append]

/-- C2, counterexample: deepMerge does not treat arrays atomically.  Merging
\x7ba:[1,2]\x7d with overlay \x7ba:[3]\x7d does not give \x7ba:[3]\x7d (it gives
\x7ba:[3,2]\x7d), refuting the claimed equality at its own example input. -/
theorem C2_counterexample :
    lmerge (J.obj [("a", J.arr [J.num 1, J.num 2])]) (J.obj [("a", J.arr [J.num 3])])
      ≠ J.obj [("a", J.arr [J.num 3])] := by
  rw [show lmerge (J.obj [("a", J.arr [J.num 1, J.num 2])]) (J.obj [("a", J.arr [J.num 3])])
      = J.obj [("a", J.arr [J.num 3, J.num 2])] from rfl]
  simp

/-- C2, amended: deepMerge merges arrays index-wise, not atomically.  When a key
holds arrays in both inputs the merged array overlays element by element and
retains the longer tail; in particular deepMerge(\x7ba:[1,2]\x7d, \x7ba:[3]\x7d)
= \x7ba:[3,2]\x7d. -/
theorem C2_amended :
    (∀ xs ys : List J, lmerge (J.arr xs) (J.arr ys)
        = J.arr (List.zipWith lmerge xs ys ++ xs.drop ys.length ++ ys.drop xs.length)) ∧
    lmerge (J.obj [("a", J.arr [J.num 1, J.num 2])]) (J.obj [("a", J.arr [J.num 3])])
      = J.obj [("a", J.arr [J.num 3, J.num 2])] := by
  constructor
  · intro xs ys
    show J.arr (mergeElems xs ys) = _
    rw [mergeElems_eq]
  · rfl

/-- C9: deepMerge is idempotent in its overlay argument: for all JSON documents
a and b (b well-formed, i.e. no object layer has duplicate keys — true of
every document a JSON parser can produce), re-merging the same overlay into an
already-merged document is a no-op: deepMerge(deepMerge(a,b),b) =
deepMerge(a,b). -/
theorem C9_deepMerge_idempotent (a b : J) (h : wfJ b = true) :
    lmerge (lmerge a b) b = lmerge a b :=
  lmerge_idem a b h

/-- C9, witness: the idempotence theorem applied at the concrete documents
a = \x7ba:1, b:\x7bc:2\x7d\x7d and b = \x7bb:\x7bd:3\x7d\x7d. -/
theorem C9_witness :
    wfJ (J.obj [("b", J.obj [("d", J.num 3)])]) = true ∧
    lmerge (lmerge (J.obj [("a", J.num 1), ("b", J.obj [("c", J.num 2)])])
        (J.obj [("b", J.obj [("d", J.num 3)])])) (J.obj [("b", J.obj [("d", J.num 3)])])
      = lmerge (J.obj [("a", J.num 1), ("b", J.obj [("c", J.num 2)])])
          (J.obj [("b", J.obj [("d", J.num 3)])]) :=
  ⟨rfl, C9_deepMerge_idempotent _ _ rfl⟩

lemma perFile_outcome (c : Cat) (env : Env) (nt : List String) (g : String) (s : RState)
    (h : g ∉ s.processedFiles) :
    ((perFile c env nt g s).result.replaced = s.result.replaced ++ [g] ∧
     (perFile c env nt g s).result.merged = s.result.merged ∧
     (perFile c env nt g s).result.added = s.result.added ∧
     (perFile c env nt g s).result.skipped = s.result.skipped ∧
     (perFile c env nt g s).processedFiles = g :: s.processedFiles) ∨
    ((perFile c env nt g s).result.replaced = s.result.replaced ∧
     (perFile c env nt g s).result.merged = s.result.merged ++ [g] ∧
     (perFile c env nt g s).result.added = s.result.added ∧
     (perFile c env nt g s).result.skipped = s.result.skipped ∧
     (perFile c env nt g s).processedFiles = g :: s.processedFiles) ∨
    ((perFile c env nt g s).result.replaced = s.result.replaced ∧
     (perFile c env nt g s).result.merged = s.result.merged ∧
     (perFile c env nt g s).result.added = s.result.added ++ [g] ∧
     (perFile c env nt g s).result.skipped = s.result.skipped ∧
     (perFile c env nt g s).processedFiles = g :: s.processedFiles) ∨
    ((perFile c env nt g s).result.replaced = s.result.replaced ∧
     (perFile c env nt g s).result.merged = s.result.merged ∧
     (perFile c env nt g s).result.added = s.result.added ∧
     (perFile c env nt g s).result.skipped = s.result.skipped ++ [g] ∧
     (perFile c env nt g s).processedFiles = g :: s.processedFiles) ∨
    ((perFile c env nt g s).result.replaced = s.result.replaced ∧
     (perFile c env nt g s).result.merged = s.result.merged ∧
     (perFile c env nt g s).result.added = s.result.added ∧
     (perFile c env nt g s).result.skipped = s.result.skipped ∧
     (perFile c env nt g s).processedFiles = s.processedFiles) := by
  cases c <;>
    · unfold perFile
      rw [if_neg (by simpa using h)]
      simp only [actOn, actAlways, actMerge, actAddOnly, pushErr]
      repeat' split
      all_goals first
        | exact Or.inl ⟨rfl, rfl, rfl, rfl, rfl⟩
        | exact Or.inr (Or.inl ⟨rfl, rfl, rfl, rfl, rfl⟩)
        | exact Or.inr (Or.inr (Or.inl ⟨rfl, rfl, rfl, rfl, rfl⟩))
        | exact Or.inr (Or.inr (Or.inr (Or.inl ⟨rfl, rfl, rfl, rfl, rfl⟩)))
        | exact Or.inr (Or.inr (Or.inr (Or.inr ⟨rfl, rfl, rfl, rfl, rfl⟩)))

lemma count_le_onecons (s : RState) (hp : SetsOK s) (g : String) (hg : g ∉ s.processedFiles)
    (x : String) :
    s.result.replaced.count x + s.result.merged.count x + s.result.added.count x
        + s.result.skipped.count x + List.count x [g]
      ≤ (if x ∈ g :: s.processedFiles then 1 else 0) := by
  by_cases hx : x = g
  · subst hx
    have h0 := hp x
    rw [if_neg hg] at h0
    rw [if_pos (List.mem_cons_self x _)]
    have h1 : List.count x [x] = 1 := by simp
    omega
  · have h0 := hp x
    have hmem : (x ∈ g :: s.processedFiles) = (x ∈ s.processedFiles) := by
      simp [List.mem_cons, hx]
    simp only [hmem]
    have hz : List.count x [g] = 0 := by simp [hx]
    omega

lemma SetsOK_perFile (c : Cat) (env : Env) (nt : List String) (g : String) (s : RState)
    (hp : SetsOK s) : SetsOK (perFile c env nt g s) := by
  by_cases hg : g ∈ s.processedFiles
  · rw [perFile_claimed c env nt g s hg]
    exact hp
  · rcases perFile_outcome c env nt g s hg with H | H | H | H | H
    · obtain ⟨h1, h2, h3, h4, h5⟩ := H
      intro x
      rw [h1, h2, h3, h4, h5]
      have := count_le_onecons s hp g hg x
      simp only [List.count_append]
      omega
    · obtain ⟨h1, h2, h3, h4, h5⟩ := H
      intro x
      rw [h1, h2, h3, h4, h5]
      have := count_le_onecons s hp g hg x
      simp only [List.count_append]
      omega
    · obtain ⟨h1, h2, h3, h4, h5⟩ := H
      intro x
      rw [h1, h2, h3, h4, h5]
      have := count_le_onecons s hp g hg x
      simp only [List.count_append]
      omega
    · obtain ⟨h1, h2, h3, h4, h5⟩ := H
      intro x
      rw [h1, h2, h3, h4, h5]
      have := count_le_onecons s hp g hg x
      simp only [List.count_append]
      omega
    · obtain ⟨h1, h2, h3, h4, h5⟩ := H
      intro x
      rw [h1, h2, h3, h4, h5]
      exact hp x

lemma SetsOK_pushErr (s : RState) (m : String) (hp : SetsOK s) : SetsOK (pushErr s m) := hp

/-- C10: in any single run of applyFileCategories the four outcome sets are
pairwise disjoint: no path is recorded in more than one of replaced, merged,
added, skipped. -/
theorem C10_result_sets_pairwise_disjoint (env : Env) (vj : VersionJson)
    (dest0 : String → Option Content) : ∀ x : String,
    ¬(x ∈ (applyFileCategories env vj dest0).result.replaced ∧
        x ∈ (applyFileCategories env vj dest0).result.merged) ∧
    ¬(x ∈ (applyFileCategories env vj dest0).result.replaced ∧
        x ∈ (applyFileCategories env vj dest0).result.added) ∧
    ¬(x ∈ (applyFileCategories env vj dest0).result.replaced ∧
        x ∈ (applyFileCategories env vj dest0).result.skipped) ∧
    ¬(x ∈ (applyFileCategories env vj dest0).result.merged ∧
        x ∈ (applyFileCategories env vj dest0).result.added) ∧
    ¬(x ∈ (applyFileCategories env vj dest0).result.merged ∧
        x ∈ (applyFileCategories env vj dest0).result.skipped) ∧
    ¬(x ∈ (applyFileCategories env vj dest0).result.added ∧
        x ∈ (applyFileCategories env vj dest0).result.skipped) := by
  have hfin : SetsOK (applyFileCategories env vj dest0) := by
    refine apply_pres (fun c s f hp => SetsOK_perFile c env _ f s hp) SetsOK_pushErr ?_
    intro x
    simp [initState]
  intro x
  have hx := hfin x
  have hb : (if x ∈ (applyFileCategories env vj dest0).processedFiles then 1 else 0) ≤ 1 := by
    split <;> omega
  refine ⟨?_, ?_, ?_, ?_, ?_, ?_⟩ <;>
    · rintro ⟨ha, hb2⟩
      rw [← List.count_pos_iff] at ha hb2
      omega

lemma runCat_errors_mono {c : Cat} {env : Env} {nt : List String} {x : String}
    (pats : List String) (s : RState) (h : x ∈ s.result.errors) :
    x ∈ (runCat c env nt pats s).result.errors :=
  runCat_pres (P := fun t => x ∈ t.result.errors)
    (fun s' f h' => perFile_errors_mono c env nt f s' h')
    (fun _ _ h' => List.mem_append_left _ h') pats s h

lemma runCat_proc_mono {c : Cat} {env : Env} {nt : List String} {x : String}
    (pats : List String) (s : RState) (h : x ∈ s.processedFiles) :
    x ∈ (runCat c env nt pats s).processedFiles :=
  runCat_pres (P := fun t => x ∈ t.processedFiles)
    (fun s' f h' => perFile_proc_mono c env nt f s' h')
    (fun _ _ h' => h') pats s h

lemma runCat_glob_err {c : Cat} {env : Env} {nt : List String} {p e : String}
    (pats : List String) (s : RState) (hp : p ∈ pats)
    (hg : env.glob p = Except.error e) :
    (patErrTag c ++ p ++ ": " ++ e) ∈ (runCat c env nt pats s).result.errors := by
  obtain ⟨l1, l2, rfl⟩ := List.append_of_mem hp
  rw [runCat_append, runCat_cons, processPattern_err c env nt _ hg]
  exact runCat_errors_mono l2 _
    (List.mem_append_right _ (List.mem_singleton.mpr rfl))

/-- C4: applyFileCategories is a total function into ApplyResult (it never raises:
its Lean type returns an RState for every environment, manifest and initial
destination), and every pattern-expansion failure in any of the three processed
lists is appended to the error list of the final result — later patterns and
categories are still processed, as the error of a failing pattern in an earlier
list survives into the final state produced by the remaining loops. -/
theorem C4_runs_to_completion_accumulating_errors (env : Env) (vj : VersionJson)
    (dest0 : String → Option Content) (p e : String) :
    (p ∈ alwaysOf vj → env.glob p = Except.error e →
      ("Failed to process pattern " ++ p ++ ": " ++ e)
        ∈ (applyFileCategories env vj dest0).result.errors) ∧
    (p ∈ mergeOf vj → env.glob p = Except.error e →
      ("Failed to process merge pattern " ++ p ++ ": " ++ e)
        ∈ (applyFileCategories env vj dest0).result.errors) ∧
    (p ∈ addOnlyOf vj → env.glob p = Except.error e →
      ("Failed to process addOnly pattern " ++ p ++ ": " ++ e)
        ∈ (applyFileCategories env vj dest0).result.errors) := by
  refine ⟨fun hp hg => ?_, fun hp hg => ?_, fun hp hg => ?_⟩
  · show _ ∈ (runCat Cat.addOnly env (ntOf vj) (addOnlyOf vj)
      (runCat Cat.mergeC env (ntOf vj) (mergeOf vj) (stage1 env vj dest0))).result.errors
    exact runCat_errors_mono _ _ (runCat_errors_mono _ _
      (runCat_glob_err (alwaysOf vj) (initState dest0) hp hg))
  · show _ ∈ (runCat Cat.addOnly env (ntOf vj) (addOnlyOf vj)
      (runCat Cat.mergeC env (ntOf vj) (mergeOf vj) (stage1 env vj dest0))).result.errors
    exact runCat_errors_mono _ _ (runCat_glob_err (mergeOf vj) (stage1 env vj dest0) hp hg)
  · exact runCat_glob_err (addOnlyOf vj) (stage2 env vj dest0) hp hg

/-- C4, witness: a manifest whose alwaysReplace, mergeIfChanged and addOnly
patterns all fail to expand still yields a result recording all three pattern
errors. -/
theorem C4_witness :
    ("pa" ∈ alwaysOf vjC4 ∧ "pm" ∈ mergeOf vjC4 ∧ "pd" ∈ addOnlyOf vjC4 ∧
      envC4.glob "pa" = Except.error "EACCES") ∧
    ("Failed to process pattern " ++ "pa" ++ ": " ++ "EACCES")
      ∈ (applyFileCategories envC4 vjC4 (fun _ => none)).result.errors ∧
    ("Failed to process merge pattern " ++ "pm" ++ ": " ++ "EACCES")
      ∈ (applyFileCategories envC4 vjC4 (fun _ => none)).result.errors ∧
    ("Failed to process addOnly pattern " ++ "pd" ++ ": " ++ "EACCES")
      ∈ (applyFileCategories envC4 vjC4 (fun _ => none)).result.errors :=
  ⟨⟨by decide, by decide, by decide, rfl⟩,
    (C4_runs_to_completion_accumulating_errors envC4 vjC4 (fun _ => none) "pa" "EACCES").1
      (by decide) rfl,
    (C4_runs_to_completion_accumulating_errors envC4 vjC4 (fun _ => none) "pm" "EACCES").2.1
      (by decide) rfl,
    (C4_runs_to_completion_accumulating_errors envC4 vjC4 (fun _ => none) "pd" "EACCES").2.2
      (by decide) rfl⟩

lemma runCat_counts_stable (c : Cat) (env : Env) (nt : List String) {f : String}
    (pats : List String) (s : RState) (hf : f ∈ s.processedFiles) :
    (runCat c env nt pats s).result.replaced.count f = s.result.replaced.count f ∧
    (runCat c env nt pats s).result.merged.count f = s.result.merged.count f ∧
    (runCat c env nt pats s).result.added.count f = s.result.added.count f ∧
    (runCat c env nt pats s).result.skipped.count f = s.result.skipped.count f := by
  have h := runCat_pres
    (P := fun t => f ∈ t.processedFiles ∧
      t.result.replaced.count f = s.result.replaced.count f ∧
      t.result.merged.count f = s.result.merged.count f ∧
      t.result.added.count f = s.result.added.count f ∧
      t.result.skipped.count f = s.result.skipped.count f)
    (fun s' g h' => by
      by_cases hgf : f = g
      · subst hgf
        rw [perFile_claimed c env nt f s' h'.1]
        exact h'
      · obtain ⟨m1, m2, m3, m4⟩ := perFile_count_ne c env nt g s' hgf
        exact ⟨perFile_proc_mono c env nt g s' h'.1,
          m1.trans h'.2.1, m2.trans h'.2.2.1, m3.trans h'.2.2.2.1, m4.trans h'.2.2.2.2⟩)
    (fun _ _ h' => h') pats s ⟨hf, rfl, rfl, rfl, rfl⟩
  exact h.2

/-- C6: categories run in the fixed order alwaysReplace, mergeIfChanged, addOnly
(applyFileCategories is the addOnly loop applied to stage2, which is the
mergeIfChanged loop applied to stage1, the alwaysReplace loop), and a path
claimed by an earlier category is never reprocessed: its number of occurrences
in every outcome list is already final, so no later category adds it to any
outcome set even when its pattern reappears in a later list. -/
theorem C6_claimed_never_reprocessed (env : Env) (vj : VersionJson)
    (dest0 : String → Option Content) (f : String) :
    (f ∈ (stage1 env vj dest0).processedFiles →
      (applyFileCategories env vj dest0).result.replaced.count f
          = (stage1 env vj dest0).result.replaced.count f ∧
      (applyFileCategories env vj dest0).result.merged.count f
          = (stage1 env vj dest0).result.merged.count f ∧
      (applyFileCategories env vj dest0).result.added.count f
          = (stage1 env vj dest0).result.added.count f ∧
      (applyFileCategories env vj dest0).result.skipped.count f
          = (stage1 env vj dest0).result.skipped.count f) ∧
    (f ∈ (stage2 env vj dest0).processedFiles →
      (applyFileCategories env vj dest0).result.replaced.count f
          = (stage2 env vj dest0).result.replaced.count f ∧
      (applyFileCategories env vj dest0).result.merged.count f
          = (stage2 env vj dest0).result.merged.count f ∧
      (applyFileCategories env vj dest0).result.added.count f
          = (stage2 env vj dest0).result.added.count f ∧
      (applyFileCategories env vj dest0).result.skipped.count f
          = (stage2 env vj dest0).result.skipped.count f) := by
  constructor
  · intro h1
    have h2 : f ∈ (stage2 env vj dest0).processedFiles := runCat_proc_mono _ _ h1
    have e2 := runCat_counts_stable Cat.mergeC env (ntOf vj)
      (mergeOf vj) (stage1 env vj dest0) h1
    have e3 := runCat_counts_stable Cat.addOnly env (ntOf vj)
      (addOnlyOf vj) (stage2 env vj dest0) h2
    exact ⟨e3.1.trans e2.1, e3.2.1.trans e2.2.1, e3.2.2.1.trans e2.2.2.1,
      e3.2.2.2.trans e2.2.2.2⟩
  · intro h2
    exact runCat_counts_stable Cat.addOnly env (ntOf vj)
      (addOnlyOf vj) (stage2 env vj dest0) h2

/-- C6, witness: a file claimed (replaced) by alwaysReplace whose pattern also
appears in mergeIfChanged and addOnly keeps exactly the outcome counts it had
after the alwaysReplace stage. -/
theorem C6_witness :
    "a.json" ∈ (stage1 envC6 vjC6 (fun _ => none)).processedFiles ∧
    ((applyFileCategories envC6 vjC6 (fun _ => none)).result.replaced.count "a.json"
        = (stage1 envC6 vjC6 (fun _ => none)).result.replaced.count "a.json" ∧
      (applyFileCategories envC6 vjC6 (fun _ => none)).result.merged.count "a.json"
        = (stage1 envC6 vjC6 (fun _ => none)).result.merged.count "a.json" ∧
      (applyFileCategories envC6 vjC6 (fun _ => none)).result.added.count "a.json"
        = (stage1 envC6 vjC6 (fun _ => none)).result.added.count "a.json" ∧
      (applyFileCategories envC6 vjC6 (fun _ => none)).result.skipped.count "a.json"
        = (stage1 envC6 vjC6 (fun _ => none)).result.skipped.count "a.json") :=
  ⟨by decide,
    (C6_claimed_never_reprocessed envC6 vjC6 (fun _ => none) "a.json").1 (by decide)⟩

/-- C7: when the merge attempt for an unclaimed, non-neverTouch mergeIfChanged
file with an existing .json destination fails — source read/parse failure,
malformed (non-JSON) destination, or write failure — the engine records a
"Failed to merge" error for the file, the destination filesystem is left
exactly as it was at every path (no partial write), and no outcome set
changes. -/
theorem C7_merge_failure_leaves_dest_intact (env : Env) (nt : List String) (f : String)
    (s : RState)
    (h1 : f ∉ s.processedFiles)
    (h2 : nt.any (fun p => env.minimatch f p) = false)
    (h3 : (s.dest f).isSome = true)
    (h4 : endsWithStr f ".json" = true)
    (h5 : (∃ e, readJsonSrc env f = Except.error e) ∨
          (∃ t, s.dest f = some (Content.text t)) ∨
          (∃ e, env.writeFail f = some e)) :
    (∀ q, (perFile Cat.mergeC env nt f s).dest q = s.dest q) ∧
    (∃ m, ("Failed to merge " ++ f ++ ": " ++ m)
        ∈ (perFile Cat.mergeC env nt f s).result.errors) ∧
    (perFile Cat.mergeC env nt f s).result.replaced = s.result.replaced ∧
    (perFile Cat.mergeC env nt f s).result.merged = s.result.merged ∧
    (perFile Cat.mergeC env nt f s).result.added = s.result.added ∧
    (perFile Cat.mergeC env nt f s).result.skipped = s.result.skipped := by
  rw [perFile_act Cat.mergeC env nt f s h1 h2,
    show actOn Cat.mergeC env f s = actMerge env f s from rfl]
  have key : ∃ m, actMerge env f s = pushErr s ("Failed to merge " ++ f ++ ": " ++ m) := by
    rcases h5 with ⟨e, he⟩ | ⟨t, ht⟩ | ⟨e, he⟩
    · exact ⟨e, actMerge_err_src env f s h3 h4 he⟩
    · cases hs : readJsonSrc env f with
      | error e2 => exact ⟨e2, actMerge_err_src env f s h3 h4 hs⟩
      | ok inc => exact ⟨_, actMerge_err_dest env f s ht h4 hs⟩
    · cases hs : readJsonSrc env f with
      | error e2 => exact ⟨e2, actMerge_err_src env f s h3 h4 hs⟩
      | ok inc =>
        cases hd : s.dest f with
        | none => rw [hd] at h3; cases h3
        | some cnt =>
          cases cnt with
          | text t => exact ⟨_, actMerge_err_dest env f s hd h4 hs⟩
          | json ex => exact ⟨e, actMerge_err_write env f s hd h4 hs he⟩
  obtain ⟨m, hm⟩ := key
  rw [hm]
  exact ⟨fun q => rfl,
    ⟨m, List.mem_append_right _ (List.mem_singleton.mpr rfl)⟩, rfl, rfl, rfl, rfl⟩

/-- C7, witness: merging into a destination file whose content is not valid JSON
records an error and leaves every destination file unchanged. -/
theorem C7_witness :
    ("cfg.json" ∉ sC7.processedFiles ∧
      (sC7.dest "cfg.json").isSome = true ∧
      endsWithStr "cfg.json" ".json" = true ∧
      sC7.dest "cfg.json" = some (Content.text "not json at all")) ∧
    ((∀ q, (perFile Cat.mergeC envC7 [] "cfg.json" sC7).dest q = sC7.dest q) ∧
      (∃ m, ("Failed to merge " ++ "cfg.json" ++ ": " ++ m)
          ∈ (perFile Cat.mergeC envC7 [] "cfg.json" sC7).result.errors) ∧
      (perFile Cat.mergeC envC7 [] "cfg.json" sC7).result.replaced = sC7.result.replaced ∧
      (perFile Cat.mergeC envC7 [] "cfg.json" sC7).result.merged = sC7.result.merged ∧
      (perFile Cat.mergeC envC7 [] "cfg.json" sC7).result.added = sC7.result.added ∧
      (perFile Cat.mergeC envC7 [] "cfg.json" sC7).result.skipped = sC7.result.skipped) :=
  ⟨⟨by decide, rfl, rfl, rfl⟩,
    C7_merge_failure_leaves_dest_intact envC7 [] "cfg.json" sC7 (by decide) rfl rfl rfl
      (Or.inr (Or.inl ⟨"not json at all", rfl⟩))⟩

/-- C8: for an unclaimed, non-neverTouch mergeIfChanged file — if the destination
does not exist, the source content is copied to the destination and the path is
recorded under replaced (merged and added unchanged); if the destination exists
and the name does not end in .json, every destination file is left untouched
and the path is recorded under skipped. -/
theorem C8_merge_install_and_nonjson_skip (env : Env) (nt : List String) (f : String)
    (s : RState)
    (h1 : f ∉ s.processedFiles)
    (h2 : nt.any (fun p => env.minimatch f p) = false) :
    (∀ cc, s.dest f = none → env.srcContent f = Except.ok cc → env.copyFail f = none →
      (perFile Cat.mergeC env nt f s).dest f = some cc ∧
      f ∈ (perFile Cat.mergeC env nt f s).result.replaced ∧
      (perFile Cat.mergeC env nt f s).result.merged = s.result.merged ∧
      (perFile Cat.mergeC env nt f s).result.added = s.result.added) ∧
    (∀ cnt, s.dest f = some cnt → endsWithStr f ".json" = false →
      (∀ q, (perFile Cat.mergeC env nt f s).dest q = s.dest q) ∧
      f ∈ (perFile Cat.mergeC env nt f s).result.skipped) := by
  rw [perFile_act Cat.mergeC env nt f s h1 h2]
  constructor
  · intro cc hd hsrc hcf
    have hc : copyFile env s.dest f = Except.ok (updateFS s.dest f cc) := by
      unfold copyFile
      rw [hsrc, hcf]
    rw [show actOn Cat.mergeC env f s = actMerge env f s from rfl,
      actMerge_copy_ok env f s hd hc]
    refine ⟨by simp [updateFS], ?_, rfl, rfl⟩
    exact List.mem_append_right _ (List.mem_singleton.mpr rfl)
  · intro cnt hd hj
    rw [show actOn Cat.mergeC env f s = actMerge env f s from rfl,
      actMerge_nojson_skip env f s (by rw [hd]; rfl) hj]
    exact ⟨fun q => rfl, List.mem_append_right _ (List.mem_singleton.mpr rfl)⟩

/-- C8, witness: both branches of the mergeIfChanged action exercised on a
concrete non-JSON file, once with an absent and once with an existing
destination. -/
theorem C8_witness :
    ("notes.txt" ∉ sC8a.processedFiles ∧ sC8a.dest "notes.txt" = none ∧
      sC8b.dest "notes.txt" = some (Content.text "keep me") ∧
      endsWithStr "notes.txt" ".json" = false) ∧
    ((perFile Cat.mergeC envC8 [] "notes.txt" sC8a).dest "notes.txt"
        = some (Content.text "payload") ∧
      "notes.txt" ∈ (perFile Cat.mergeC envC8 [] "notes.txt" sC8a).result.replaced ∧
      (perFile Cat.mergeC envC8 [] "notes.txt" sC8a).result.merged = sC8a.result.merged ∧
      (perFile Cat.mergeC envC8 [] "notes.txt" sC8a).result.added = sC8a.result.added) ∧
    ((∀ q, (perFile Cat.mergeC envC8 [] "notes.txt" sC8b).dest q = sC8b.dest q) ∧
      "notes.txt" ∈ (perFile Cat.mergeC envC8 [] "notes.txt" sC8b).result.skipped) :=
  ⟨⟨by decide, rfl, rfl, rfl⟩,
    (C8_merge_install_and_nonjson_skip envC8 [] "notes.txt" sC8a (by decide) rfl).1
      (Content.text "payload") rfl rfl rfl,
    (C8_merge_install_and_nonjson_skip envC8 [] "notes.txt" sC8b (by decide) rfl).2
      (Content.text "keep me") rfl rfl⟩

/-- C1, counterexample: a file produced by expanding a pattern of the manifest
(here a neverTouch pattern — the engine never expands the neverTouch list) that
matches a neverTouch pattern is not recorded under skipped: the claim as stated
fails for manifests whose only mention of the file is in neverTouch itself. -/
theorem C1_counterexample :
    (∃ p, (p ∈ alwaysOf vjC1 ∨ p ∈ ntOf vjC1 ∨ p ∈ mergeOf vjC1 ∨ p ∈ addOnlyOf vjC1) ∧
      ∃ fs, envC1.glob p = Except.ok fs ∧ "a.txt" ∈ fs) ∧
    (∃ p ∈ ntOf vjC1, envC1.minimatch "a.txt" p = true) ∧
    "a.txt" ∉ (applyFileCategories envC1 vjC1 (fun _ => none)).result.skipped :=
  ⟨⟨"a.txt", Or.inr (Or.inl (by decide)), ["a.txt"], rfl, by decide⟩,
    ⟨"a.txt", by decide, rfl⟩, by decide⟩

lemma C1_inv_step {env : Env} {nt : List String} {f : String}
    {v : Option Content} (hmatch : nt.any (fun p => env.minimatch f p) = true)
    (c : Cat) (g : String) (s : RState)
    (h : s.dest f = v ∧ (f ∈ s.processedFiles → f ∈ s.result.skipped)) :
    (perFile c env nt g s).dest f = v ∧
      (f ∈ (perFile c env nt g s).processedFiles →
        f ∈ (perFile c env nt g s).result.skipped) := by
  by_cases hgf : g = f
  · subst hgf
    by_cases hcl : g ∈ s.processedFiles
    · rw [perFile_claimed c env nt g s hcl]
      exact h
    · rw [perFile_nt c env nt g s hcl hmatch]
      exact ⟨h.1, fun _ => List.mem_append_right _ (List.mem_singleton.mpr rfl)⟩
  · refine ⟨by rw [perFile_dest_ne c env nt g s (fun hh => hgf hh.symm)]; exact h.1, ?_⟩
    intro hp
    rcases perFile_proc_sub c env nt g s hp with h1 | h1
    · exact perFile_skipped_mono c env nt g s (h.2 h1)
    · exact absurd h1.symm hgf

lemma C1_visit_claims {env : Env} {nt : List String} {f : String}
    (hmatch : nt.any (fun p => env.minimatch f p) = true) (c : Cat) :
    ∀ (files : List String) (s : RState), f ∈ files →
    f ∈ (runFiles c env nt files s).processedFiles := by
  intro files
  induction files with
  | nil => intro s h; cases h
  | cons g rest ih =>
    intro s hmem
    rw [runFiles_cons]
    by_cases hgf : g = f
    · subst hgf
      have hstep : g ∈ (perFile c env nt g s).processedFiles := by
        by_cases hcl : g ∈ s.processedFiles
        · rw [perFile_claimed c env nt g s hcl]; exact hcl
        · rw [perFile_nt c env nt g s hcl hmatch]
          exact List.mem_cons_self g _
      exact runFiles_pres (fun s' g' h' => perFile_proc_mono c env nt g' s' h') rest _ hstep
    · have hmem' : f ∈ rest := by
        rcases List.mem_cons.mp hmem with h1 | h1
        · exact absurd h1.symm hgf
        · exact h1
      exact ih _ hmem'

lemma C1_runCat_claims {env : Env} {nt : List String} {f : String}
    (hmatch : nt.any (fun p => env.minimatch f p) = true) (c : Cat) :
    ∀ (pats : List String) (s : RState),
    (∃ p ∈ pats, ∃ fs, env.glob p = Except.ok fs ∧ f ∈ fs) →
    f ∈ (runCat c env nt pats s).processedFiles := by
  intro pats
  induction pats with
  | nil =>
    intro s hex
    obtain ⟨p, hp, _⟩ := hex
    cases hp
  | cons p rest ih =>
    intro s hex
    rw [runCat_cons]
    obtain ⟨p', hp', fs, hg, hf⟩ := hex
    rcases List.mem_cons.mp hp' with h1 | h1
    · subst h1
      rw [processPattern_ok c env nt s hg]
      exact runCat_proc_mono rest _ (C1_visit_claims hmatch c fs s hf)
    · exact ih _ ⟨p', h1, fs, hg, hf⟩

/-- C1, amended: for every file produced by expanding an alwaysReplace,
mergeIfChanged or addOnly pattern that matches at least one neverTouch pattern,
the run performs no write to that destination path (its content after the run
is identical to before) and the path is recorded under skipped, regardless of
which of the three processed lists produced it. -/
theorem C1_neverTouch_always_wins (env : Env) (vj : VersionJson)
    (dest0 : String → Option Content) (f : String)
    (hvis : ∃ p, (p ∈ alwaysOf vj ∨ p ∈ mergeOf vj ∨ p ∈ addOnlyOf vj) ∧
      ∃ fs, env.glob p = Except.ok fs ∧ f ∈ fs)
    (hmatch : (ntOf vj).any (fun p => env.minimatch f p) = true) :
    (applyFileCategories env vj dest0).dest f = dest0 f ∧
    f ∈ (applyFileCategories env vj dest0).result.skipped := by
  have hinv : (applyFileCategories env vj dest0).dest f = dest0 f ∧
      (f ∈ (applyFileCategories env vj dest0).processedFiles →
        f ∈ (applyFileCategories env vj dest0).result.skipped) :=
    apply_pres (fun c s g h => C1_inv_step hmatch c g s h) (fun _ _ h => h) ⟨rfl, fun _ => by
      simp [initState] at *⟩
  have hproc : f ∈ (applyFileCategories env vj dest0).processedFiles := by
    obtain ⟨p, hcat, fs, hg, hf⟩ := hvis
    rcases hcat with h1 | h1 | h1
    · show f ∈ (runCat Cat.addOnly env (ntOf vj) (addOnlyOf vj)
        (runCat Cat.mergeC env (ntOf vj) (mergeOf vj) (stage1 env vj dest0))).processedFiles
      exact runCat_proc_mono _ _ (runCat_proc_mono _ _
        (C1_runCat_claims hmatch Cat.always (alwaysOf vj) (initState dest0)
          ⟨p, h1, fs, hg, hf⟩))
    · show f ∈ (runCat Cat.addOnly env (ntOf vj) (addOnlyOf vj)
        (runCat Cat.mergeC env (ntOf vj) (mergeOf vj) (stage1 env vj dest0))).processedFiles
      exact runCat_proc_mono _ _
        (C1_runCat_claims hmatch Cat.mergeC (mergeOf vj) (stage1 env vj dest0)
          ⟨p, h1, fs, hg, hf⟩)
    · exact C1_runCat_claims hmatch Cat.addOnly (addOnlyOf vj) (stage2 env vj dest0)
        ⟨p, h1, fs, hg, hf⟩
  exact ⟨hinv.1, hinv.2 hproc⟩

/-- C1, witness: a file listed in both alwaysReplace and neverTouch keeps its
destination content and is recorded under skipped. -/
theorem C1_witness :
    ((∃ p, (p ∈ alwaysOf vjC1w ∨ p ∈ mergeOf vjC1w ∨ p ∈ addOnlyOf vjC1w) ∧
        ∃ fs, envC1.glob p = Except.ok fs ∧ "a.txt" ∈ fs) ∧
      (ntOf vjC1w).any (fun p => envC1.minimatch "a.txt" p) = true) ∧
    (applyFileCategories envC1 vjC1w
        (fun q => if q = "a.txt" then some (Content.text "user data") else none)).dest "a.txt"
      = some (Content.text "user data") ∧
    "a.txt" ∈ (applyFileCategories envC1 vjC1w
        (fun q => if q = "a.txt" then some (Content.text "user data") else none)).result.skipped :=
  ⟨⟨⟨"a.txt", Or.inl (by decide), ["a.txt"], rfl, by decide⟩, rfl⟩, by
    have h := C1_neverTouch_always_wins envC1 vjC1w
      (fun q => if q = "a.txt" then some (Content.text "user data") else none) "a.txt"
      ⟨"a.txt", Or.inl (by decide), ["a.txt"], rfl, by decide⟩ rfl
    exact ⟨by rw [h.1]; rfl, h.2⟩⟩

/-- C5, counterexample: a file whose copy fails in the alwaysReplace loop (error
recorded) is not claimed, so a mergeIfChanged pattern matching the same file
reprocesses it and records it under skipped — the path appears both in the
error list and in a result set, refuting the claim that a failed file appears
in none of the four sets. -/
theorem C5_counterexample :
    ("Failed to copy " ++ "a.txt" ++ ": " ++ "EACCES")
      ∈ (applyFileCategories envC5 vjC5 dest0C5).result.errors ∧
    "a.txt" ∈ (applyFileCategories envC5 vjC5 dest0C5).result.skipped := by
  constructor <;> decide

lemma C5_fail_step {env : Env} {nt : List String} {f e : String}
    (hsrc : env.srcContent f = Except.error e)
    (hN : nt.any (fun p => env.minimatch f p) = false)
    (c : Cat) (s : RState) (hE : C5E f s) :
    perFile c env nt f s = pushErr s
      (patFileErrTag c ++ f ++ ": " ++ e) := by
  have hcopy : copyFile env s.dest f = Except.error e := by
    unfold copyFile
    rw [hsrc]
  rw [perFile_act c env nt f s hE.1 hN]
  cases c
  · exact actAlways_err env f s hcopy
  · show actMerge env f s = _
    rw [actMerge_copy_err env f s hE.2.1 hcopy]
    rfl
  · show actAddOnly env f s = _
    rw [actAddOnly_err env f s hE.2.1 hcopy]
    rfl

lemma C5E_step {env : Env} {nt : List String} {f e : String}
    (hsrc : env.srcContent f = Except.error e)
    (hN : nt.any (fun p => env.minimatch f p) = false)
    (c : Cat) (g : String) (s : RState) (hE : C5E f s) :
    C5E f (perFile c env nt g s) := by
  by_cases hgf : g = f
  · subst hgf
    rw [C5_fail_step hsrc hN c s hE]
    exact hE
  · refine ⟨?_, ?_, ?_, ?_, ?_, ?_⟩
    · intro hp
      rcases perFile_proc_sub c env nt g s hp with h1 | h1
      · exact hE.1 h1
      · exact hgf h1.symm
    · rw [perFile_dest_ne c env nt g s (fun hh => hgf hh.symm)]
      exact hE.2.1
    · intro hp
      rcases perFile_replaced_sub c env nt g s hp with h1 | h1
      · exact hE.2.2.1 h1
      · exact hgf h1.symm
    · intro hp
      rcases perFile_merged_sub c env nt g s hp with h1 | h1
      · exact hE.2.2.2.1 h1
      · exact hgf h1.symm
    · intro hp
      rcases perFile_added_sub c env nt g s hp with h1 | h1
      · exact hE.2.2.2.2.1 h1
      · exact hgf h1.symm
    · intro hp
      rcases perFile_skipped_sub c env nt g s hp with h1 | h1
      · exact hE.2.2.2.2.2 h1
      · exact hgf h1.symm

lemma C5E_runCat {env : Env} {nt : List String} {f e : String}
    (hsrc : env.srcContent f = Except.error e)
    (hN : nt.any (fun p => env.minimatch f p) = false)
    (c : Cat) (pats : List String) (s : RState) (hE : C5E f s) :
    C5E f (runCat c env nt pats s) :=
  runCat_pres (fun s' g h' => C5E_step hsrc hN c g s' h')
    (fun _ _ h' => h') pats s hE

lemma C5_err_visit {env : Env} {nt : List String} {f e : String}
    (hsrc : env.srcContent f = Except.error e)
    (hN : nt.any (fun p => env.minimatch f p) = false) (c : Cat) :
    ∀ (files : List String) (s : RState), f ∈ files → C5E f s →
    C5msgs f e (runFiles c env nt files s) := by
  intro files
  induction files with
  | nil => intro s h; cases h
  | cons g rest ih =>
    intro s hmem hE
    rw [runFiles_cons]
    by_cases hgf : g = f
    · subst hgf
      rw [C5_fail_step hsrc hN c s hE]
      have hin : C5msgs g e (pushErr s (patFileErrTag c ++ g ++ ": " ++ e)) := by
        cases c
        · exact Or.inl (List.mem_append_right _ (List.mem_singleton.mpr rfl))
        · exact Or.inr (Or.inl (List.mem_append_right _ (List.mem_singleton.mpr rfl)))
        · exact Or.inr (Or.inr (List.mem_append_right _ (List.mem_singleton.mpr rfl)))
      exact runFiles_pres (P := C5msgs g e)
        (fun s' g' h' => by
          rcases h' with h' | h' | h'
          · exact Or.inl (perFile_errors_mono c env nt g' s' h')
          · exact Or.inr (Or.inl (perFile_errors_mono c env nt g' s' h'))
          · exact Or.inr (Or.inr (perFile_errors_mono c env nt g' s' h'))) rest _ hin
    · have hmem' : f ∈ rest := by
        rcases List.mem_cons.mp hmem with h1 | h1
        · exact absurd h1.symm hgf
        · exact h1
      exact ih _ hmem' (C5E_step hsrc hN c g s hE)

lemma C5msgs_runCat {env : Env} {nt : List String} {f e : String}
    (c : Cat) (pats : List String) (s : RState) (h : C5msgs f e s) :
    C5msgs f e (runCat c env nt pats s) := by
  rcases h with h | h | h
  · exact Or.inl (runCat_errors_mono pats s h)
  · exact Or.inr (Or.inl (runCat_errors_mono pats s h))
  · exact Or.inr (Or.inr (runCat_errors_mono pats s h))

lemma C5_err_runCat {env : Env} {nt : List String} {f e : String}
    (hsrc : env.srcContent f = Except.error e)
    (hN : nt.any (fun p => env.minimatch f p) = false) (c : Cat) :
    ∀ (pats : List String) (s : RState),
    (∃ p ∈ pats, ∃ fs, env.glob p = Except.ok fs ∧ f ∈ fs) → C5E f s →
    C5msgs f e (runCat c env nt pats s) := by
  intro pats
  induction pats with
  | nil =>
    intro s hex
    obtain ⟨p, hp, _⟩ := hex
    cases hp
  | cons p rest ih =>
    intro s hex hE
    rw [runCat_cons]
    obtain ⟨p', hp', fs, hg, hf⟩ := hex
    rcases List.mem_cons.mp hp' with h1 | h1
    · subst h1
      rw [processPattern_ok c env nt s hg]
      exact C5msgs_runCat c rest _ (C5_err_visit hsrc hN c fs s hf hE)
    · refine ih _ ⟨p', h1, fs, hg, hf⟩ ?_
      cases hgp : env.glob p with
      | error e2 => rw [processPattern_err c env nt s hgp]; exact hE
      | ok fs2 =>
        rw [processPattern_ok c env nt s hgp]
        exact runFiles_pres (fun s' g h' => C5E_step hsrc hN c g s' h') fs2 s hE

/-- C5, amended: a failing attempt records an error and adds the path to no
outcome set, but does not claim the path, so only a file all of whose
processing attempts fail is guaranteed absent from all four sets: if reading
the source file always fails and the destination is initially absent, the path
appears in none of replaced, merged, added, skipped, and a per-file error
tagged with the path and cause is recorded for the category that visited it. -/
theorem C5_failed_file_in_no_result_set_unless_reprocessed (env : Env) (vj : VersionJson)
    (dest0 : String → Option Content) (f e : String)
    (hsrc : env.srcContent f = Except.error e)
    (hd0 : dest0 f = none)
    (hN : (ntOf vj).any (fun p => env.minimatch f p) = false)
    (hvis : ∃ p, (p ∈ alwaysOf vj ∨ p ∈ mergeOf vj ∨ p ∈ addOnlyOf vj) ∧
      ∃ fs, env.glob p = Except.ok fs ∧ f ∈ fs) :
    f ∉ (applyFileCategories env vj dest0).result.replaced ∧
    f ∉ (applyFileCategories env vj dest0).result.merged ∧
    f ∉ (applyFileCategories env vj dest0).result.added ∧
    f ∉ (applyFileCategories env vj dest0).result.skipped ∧
    C5msgs f e (applyFileCategories env vj dest0) := by
  have hE0 : C5E f (initState dest0) := by
    refine ⟨?_, hd0, ?_, ?_, ?_, ?_⟩ <;> simp [initState]
  have hE1 : C5E f (stage1 env vj dest0) := C5E_runCat hsrc hN Cat.always _ _ hE0
  have hE2 : C5E f (stage2 env vj dest0) := C5E_runCat hsrc hN Cat.mergeC _ _ hE1
  have hEf : C5E f (applyFileCategories env vj dest0) :=
    C5E_runCat hsrc hN Cat.addOnly _ _ hE2
  have hmsg : C5msgs f e (applyFileCategories env vj dest0) := by
    obtain ⟨p, hcat, fs, hg, hf⟩ := hvis
    rcases hcat with h1 | h1 | h1
    · show C5msgs f e (runCat Cat.addOnly env (ntOf vj) (addOnlyOf vj)
        (runCat Cat.mergeC env (ntOf vj) (mergeOf vj) (stage1 env vj dest0)))
      exact C5msgs_runCat _ _ _ (C5msgs_runCat _ _ _
        (C5_err_runCat hsrc hN Cat.always (alwaysOf vj) (initState dest0)
          ⟨p, h1, fs, hg, hf⟩ hE0))
    · show C5msgs f e (runCat Cat.addOnly env (ntOf vj) (addOnlyOf vj)
        (runCat Cat.mergeC env (ntOf vj) (mergeOf vj) (stage1 env vj dest0)))
      exact C5msgs_runCat _ _ _
        (C5_err_runCat hsrc hN Cat.mergeC (mergeOf vj) (stage1 env vj dest0)
          ⟨p, h1, fs, hg, hf⟩ hE1)
    · exact C5_err_runCat hsrc hN Cat.addOnly (addOnlyOf vj) (stage2 env vj dest0)
        ⟨p, h1, fs, hg, hf⟩ hE2
  exact ⟨hEf.2.2.1, hEf.2.2.2.1, hEf.2.2.2.2.1, hEf.2.2.2.2.2, hmsg⟩

/-- C5, witness: a file whose source read always fails, matched by alwaysReplace
and mergeIfChanged patterns, ends in no outcome set with its error recorded. -/
theorem C5_witness :
    (envC5w.srcContent "a.txt" = Except.error "ENOENT" ∧
      (∃ p, (p ∈ alwaysOf vjC5 ∨ p ∈ mergeOf vjC5 ∨ p ∈ addOnlyOf vjC5) ∧
        ∃ fs, envC5w.glob p = Except.ok fs ∧ "a.txt" ∈ fs)) ∧
    "a.txt" ∉ (applyFileCategories envC5w vjC5 (fun _ => none)).result.replaced ∧
    "a.txt" ∉ (applyFileCategories envC5w vjC5 (fun _ => none)).result.merged ∧
    "a.txt" ∉ (applyFileCategories envC5w vjC5 (fun _ => none)).result.added ∧
    "a.txt" ∉ (applyFileCategories envC5w vjC5 (fun _ => none)).result.skipped ∧
    C5msgs "a.txt" "ENOENT" (applyFileCategories envC5w vjC5 (fun _ => none)) :=
  ⟨⟨rfl, ⟨"a.txt", Or.inl (by decide), ["a.txt"], rfl, by decide⟩⟩,
    C5_failed_file_in_no_result_set_unless_reprocessed envC5w vjC5 (fun _ => none)
      "a.txt" "ENOENT" rfl rfl rfl
      ⟨"a.txt", Or.inl (by decide), ["a.txt"], rfl, by decide⟩⟩
